import Mathlib

/-!
Shallow embedding of the fastroom real-time connection & presence engine
(`backend/src/fast_room_api/api/routers/ws.py`).

Websockets are identified by natural numbers (`Conn`).  The Redis presence
store is a list of `(key, ttl_ms)` pairs; `psetex` replaces or inserts a key,
`redisDel` removes every pair with that key, and a SCAN with a glob pattern
`p ++ "*"` is modelled as a prefix filter over the stored keys.  The
`ConnectionManager`'s dictionaries become association lists, Python sets
become duplicate-free lists, and the per-socket protocol handler becomes a
pure function from (db state, manager state, inbound frame) to (new states,
list of emitted events).  Events record both local socket sends and bus
publications, in program order.
-/

namespace FastRoom

abbrev Conn := Nat

/-- Association-list lookup (Python `dict.get`). -/
def aget {α β : Type} [DecidableEq α] (k : α) : List (α × β) → Option β
  | [] => none
  | (a, b) :: t => if a = k then some b else aget k t

/-- Association-list insert/replace (Python `dict[k] = v`). -/
def aset {α β : Type} [DecidableEq α] (k : α) (v : β) : List (α × β) → List (α × β)
  | [] => [(k, v)]
  | (a, b) :: t => if a = k then (k, v) :: t else (a, b) :: aset k v t

/-- Association-list removal (Python `dict.pop(k, None)`). -/
def adel {α β : Type} [DecidableEq α] (k : α) : List (α × β) → List (α × β)
  | [] => []
  | (a, b) :: t => if a = k then adel k t else (a, b) :: adel k t

/-- Python `set.add`: insert if absent (keeps the list duplicate-free). -/
def sadd {α : Type} [DecidableEq α] (x : α) (l : List α) : List α :=
  if x ∈ l then l else l ++ [x]

/-- Python `set.discard`. -/
def sdiscard {α : Type} [DecidableEq α] (x : α) : List α → List α
  | [] => []
  | a :: t => if a = x then sdiscard x t else a :: sdiscard x t

/-- Bool-valued prefix test on character lists (`k.startswith p`). -/
def starts : List Char → List Char → Bool
  | [], _ => true
  | _ :: _, [] => false
  | a :: as, b :: bs => a = b && starts as bs

/-- A stored key matches the glob pattern `p ++ "*"` iff `p` is a prefix. -/
def keyMatches (p k : String) : Bool := starts p.data k.data

/-- Splitting a character list at a delimiter character (Python `s.split(":")`). -/
def splitOnChar (c : Char) : List Char → List (List Char)
  | [] => [[]]
  | x :: xs =>
    match splitOnChar c xs with
    | [] => [[]]
    | h :: t => if x = c then [] :: h :: t else (x :: h) :: t

/-- The presence store: stored keys with their TTL in milliseconds. -/
abbrev Store := List (String × Nat)

/-- Redis `PSETEX key ttl_ms value`: replace or insert the key. -/
def psetex (k : String) (ttlMs : Nat) (st : Store) : Store :=
  (k, ttlMs) :: st.filter (fun e => e.1 ≠ k)

/-- Redis `DEL key`. -/
def redisDel (k : String) (st : Store) : Store :=
  st.filter (fun e => e.1 ≠ k)

/-- All stored keys matching glob `p ++ "*"` (the SCAN cursor loop, drained). -/
def scanKeys (p : String) (st : Store) : List String :=
  (st.map Prod.fst).filter (keyMatches p)

/-- Whether any stored key matches glob `p ++ "*"` (the early-exit SCAN loops
in `join` and `leave` only test emptiness of the match set). -/
def anyKey (p : String) (st : Store) : Bool :=
  (st.map Prod.fst).any (keyMatches p)

-- Module-level constants of ws.py (environment defaults).
def HEARTBEAT_KEY_PREFIX : String := "presence:hb:"
def HEARTBEAT_INTERVAL : Nat := 25
def HEARTBEAT_TTL_MS : Nat := (HEARTBEAT_INTERVAL + 5) * 1000
def HISTORY_LIMIT : Nat := 50
def CHANNEL_PREFIX : String := "room:"

/-- `ConnectionManager._heartbeat_key`. -/
def heartbeat_key (room username connId : String) : String :=
  HEARTBEAT_KEY_PREFIX ++ room ++ ":" ++ username ++ ":" ++ connId

/-- Glob prefix used by join/leave: `presence:hb:<room>:<username>:` (+ `*`). -/
def userPattern (room username : String) : String :=
  HEARTBEAT_KEY_PREFIX ++ room ++ ":" ++ username ++ ":"

/-- Glob prefix used by the presence_state scan: `presence:hb:<room>:` (+ `*`). -/
def roomPattern (room : String) : String :=
  HEARTBEAT_KEY_PREFIX ++ room ++ ":"

/-- Per-process `ConnectionManager` state plus the shared Redis store.
`nextId` is a counter standing in for `uuid4().hex` generation: fresh
connection ids are `connIdOf nextId`. -/
structure Mgr where
  rooms : List (String × List Conn)
  conn_rooms : List (Conn × List String)
  ws_username : List (Conn × String)
  room_subscribed : List String
  heartbeat_tasks : List (Conn × String)
  ws_conn_id : List (Conn × String)
  nextId : Nat
  store : Store
  deriving DecidableEq, Repr

def Mgr.init : Mgr := ⟨[], [], [], [], [], [], 0, []⟩

/-- Hex digit character. -/
def hexChar (n : Nat) : Char :=
  if n < 10 then Char.ofNat (48 + n) else Char.ofNat (87 + n)

/-- Hex digits of a natural number (most significant first), accumulator
style, with a fuel argument for structural recursion. -/
def hexAux : Nat → Nat → List Char → List Char
  | _, 0, acc => acc
  | 0, _, acc => acc
  | fuel + 1, n, acc => hexAux fuel (n / 16) (hexChar (n % 16) :: acc)

/-- Deterministic stand-in for `uuid.uuid4().hex` driven by the `nextId`
counter: the hex rendering of the counter. -/
def connIdOf (n : Nat) : String :=
  if n = 0 then "0" else ⟨hexAux n n []⟩

/-- Local sockets of a room: `self.rooms.get(room, [])`. -/
def Mgr.roomConns (s : Mgr) (room : String) : List Conn :=
  (aget room s.rooms).getD []

/-- Rooms a socket has joined: `self.conn_rooms.get(ws, [])`. -/
def Mgr.connRooms (s : Mgr) (ws : Conn) : List String :=
  (aget ws s.conn_rooms).getD []

/-- `ConnectionManager.in_room`. -/
def Mgr.in_room (s : Mgr) (ws : Conn) (room : String) : Bool :=
  decide (room ∈ s.connRooms ws)

/-- Python truthiness of an optional string (`if username:`). -/
def pyTruthy : Option String → Bool
  | none => false
  | some u => u ≠ ""

/-- `ConnectionManager.subscribe_room`. -/
def Mgr.subscribe_room (s : Mgr) (room : String) : Mgr :=
  if room ∈ s.room_subscribed then s
  else { s with room_subscribed := s.room_subscribed ++ [room] }

/-- `ConnectionManager.unsubscribe_room_if_empty`. -/
def Mgr.unsubscribe_room_if_empty (s : Mgr) (room : String) : Mgr :=
  if room ∈ s.room_subscribed ∧ s.roomConns room = [] then
    { s with room_subscribed := sdiscard room s.room_subscribed }
  else s

/-- `ConnectionManager._start_heartbeat`: no-op when a task for `(ws, room)`
already exists; otherwise ensure a connection id, write the heartbeat key
immediately with `HEARTBEAT_TTL_MS`, and record the task. -/
def Mgr.start_heartbeat (s : Mgr) (room : String) (ws : Conn) (username : String) : Mgr :=
  if (ws, room) ∈ s.heartbeat_tasks then s
  else
    match aget ws s.ws_conn_id with
    | some c =>
        { s with
          store := psetex (heartbeat_key room username c) HEARTBEAT_TTL_MS s.store,
          heartbeat_tasks := s.heartbeat_tasks ++ [(ws, room)] }
    | none =>
        { s with
          ws_conn_id := aset ws (connIdOf s.nextId) s.ws_conn_id,
          nextId := s.nextId + 1,
          store := psetex (heartbeat_key room username (connIdOf s.nextId))
            HEARTBEAT_TTL_MS s.store,
          heartbeat_tasks := s.heartbeat_tasks ++ [(ws, room)] }

/-- `ConnectionManager._stop_heartbeat`: drop the task entry, then proactively
delete the heartbeat key when username and connection id are known. -/
def Mgr.stop_heartbeat (s : Mgr) (room : String) (ws : Conn) : Mgr :=
  let s := { s with heartbeat_tasks := sdiscard (ws, room) s.heartbeat_tasks }
  match aget ws s.ws_username, aget ws s.ws_conn_id with
  | some username, some connId =>
      if username ≠ "" ∧ connId ≠ "" then
        { s with store := redisDel (heartbeat_key room username connId) s.store }
      else s
  | _, _ => s

/-- `ConnectionManager.join`: subscribe the room channel, register the socket
locally, record its username, ensure a connection id, scan for any existing
heartbeat key of `(room, username)`, then start the heartbeat (which writes
the key).  Returns the new state and `first_global`. -/
def Mgr.join (s : Mgr) (room : String) (ws : Conn) (username : String) : Mgr × Bool :=
  let s := s.subscribe_room room
  let s := { s with rooms := aset room (sadd ws (s.roomConns room)) s.rooms }
  let s := { s with conn_rooms := aset ws (sadd room (s.connRooms ws)) s.conn_rooms }
  let s := { s with ws_username := aset ws username s.ws_username }
  let s :=
    if (aget ws s.ws_conn_id).isSome then s
    else { s with ws_conn_id := aset ws (connIdOf s.nextId) s.ws_conn_id,
                  nextId := s.nextId + 1 }
  let seen := anyKey (userPattern room username) s.store
  let first_global := !seen
  let s := s.start_heartbeat room ws username
  (s, first_global)

/-- `ConnectionManager.leave`: deregister locally, stop the heartbeat (which
deletes the key), scan for remaining `(room, username)` keys, unsubscribe the
channel if no local member remains.  Returns `(removedGlobal, username)`. -/
def Mgr.leave (s : Mgr) (room : String) (ws : Conn) : Mgr × Bool × Option String :=
  let s :=
    match aget room s.rooms with
    | none => s
    | some conns =>
        let conns := sdiscard ws conns
        if conns = [] then { s with rooms := adel room s.rooms }
        else { s with rooms := aset room conns s.rooms }
  let s := { s with conn_rooms := aset ws (sdiscard room (s.connRooms ws)) s.conn_rooms }
  let s := s.stop_heartbeat room ws
  let username := aget ws s.ws_username
  let removed :=
    match username with
    | some u => if u ≠ "" then !anyKey (userPattern room u) s.store else false
    | none => false
  let s := s.unsubscribe_room_if_empty room
  (s, removed, username)

/-- Username extraction from a heartbeat key (`k.split(":")`, use `parts[3]`
when the key has at least five colon-delimited fields, skip otherwise). -/
def extractUser (k : String) : Option String :=
  let parts := splitOnChar ':' k.data
  if 5 ≤ parts.length then some ⟨parts.getD 3 []⟩ else none

/-- The presence_state scan in the join handler: collect `parts[3]` of every
well-formed key matching `presence:hb:<room>:*` into a set, then sort. -/
def presenceUsers (room : String) (st : Store) : List String :=
  ((scanKeys (roomPattern room) st).filterMap extractUser).dedup.insertionSort (· ≤ ·)

-- ---------------------------------------------------------------------------
-- External persistence (rooms, memberships, messages)
-- ---------------------------------------------------------------------------

/-- A `RoomMemberORM` row's moderation flags. -/
structure Membership where
  is_banned : Bool
  is_muted : Bool
  deriving DecidableEq, Repr

/-- A message row joined with its author's username (`none` models a deleted
user, the outer join in the history queries). -/
structure MsgRow where
  id : Nat
  room : String
  username : Option String
  content : String
  created_at : Nat
  deriving DecidableEq, Repr

/-- Relational state: room names, `(room, user) ↦ membership` rows, message
rows, and the autoincrement message id. -/
structure Db where
  rooms : List String
  members : List ((String × String) × Membership)
  messages : List MsgRow
  nextMsgId : Nat
  deriving DecidableEq, Repr

def Db.init : Db := ⟨[], [], [], 0⟩

/-- `ensure_room_and_membership`: create the room row if absent, then an
idempotent membership row with default (unbanned, unmuted) flags. -/
def ensure_room_and_membership (db : Db) (room username : String) : Db :=
  let db := if room ∈ db.rooms then db else { db with rooms := db.rooms ++ [room] }
  if (aget (room, username) db.members).isSome then db
  else { db with members := aset (room, username) ⟨false, false⟩ db.members }

/-- `ORDER BY created_at DESC` comparison for message rows. -/
def byNewest (a b : MsgRow) : Prop := b.created_at ≤ a.created_at

instance : DecidableRel byNewest := fun _ _ => Nat.decLe _ _

/-- The history query on join: the room's messages most-recent-first, limited
to `HISTORY_LIMIT`. -/
def roomHistoryDesc (db : Db) (room : String) : List MsgRow :=
  ((db.messages.filter (fun m => m.room = room)).insertionSort byNewest).take HISTORY_LIMIT

-- ---------------------------------------------------------------------------
-- Outbound frames and the event trace
-- ---------------------------------------------------------------------------

/-- Payload of an `OutChatMessage`. -/
structure ChatPayload where
  room : String
  user : String
  message : String
  message_id : Nat
  ts : Nat
  deriving DecidableEq, Repr

/-- Outbound frames relevant to the modelled handlers. -/
inductive Frame where
  | joined (room : String)
  | presence_state (room : String) (users : List String)
  | history (room : String) (messages : List ChatPayload)
  | presence_diff_join (room : String) (users : List String)
  | presence_diff_leave (room : String) (users : List String)
  | system (room : String) (message : String)
  | chat (p : ChatPayload)
  | error (message : String)
  deriving DecidableEq, Repr

/-- An observable effect: a frame sent to a local socket, or a payload
published on the room's bus channel (which stamps the origin tag). -/
inductive Event where
  | send (dest : Conn) (f : Frame)
  | publish (room : String) (f : Frame)
  deriving DecidableEq, Repr

/-- The presence_diff(join) + system broadcast block of the join handler:
local sends excluding the joining socket, each followed by a bus publish. -/
def joinBlock (room uname : String) (peers : List Conn) (ws : Conn) : List Event :=
  (peers.filter (fun p => p ≠ ws)).map (fun p => Event.send p (.presence_diff_join room [uname]))
    ++ [Event.publish room (.presence_diff_join room [uname])]
    ++ (peers.filter (fun p => p ≠ ws)).map (fun p => Event.send p (.system room (uname ++ " joined")))
    ++ [Event.publish room (.system room (uname ++ " joined"))]

/-- The presence_diff(leave) + system broadcast block shared by the explicit
leave handler and the disconnect cleanup: local sends to every socket still
in the room, each followed by a bus publish. -/
def leaveBlock (room uname : String) (peers : List Conn) : List Event :=
  peers.map (fun p => Event.send p (.presence_diff_leave room [uname]))
    ++ [Event.publish room (.presence_diff_leave room [uname])]
    ++ peers.map (fun p => Event.send p (.system room (uname ++ " left")))
    ++ [Event.publish room (.system room (uname ++ " left"))]

/-- The loop of `leave_all`: leave each room in order, collecting the
`(room, username)` pairs whose removal was global. -/
def leaveAllCollect (ws : Conn) : List String → Mgr → Mgr × List (String × String)
  | [], s => (s, [])
  | r :: rest, s =>
    let t := s.leave r ws
    let c := leaveAllCollect ws rest t.1
    if t.2.1 && pyTruthy t.2.2 then (c.1, (r, t.2.2.getD "") :: c.2) else (c.1, c.2)

/-- `ConnectionManager.leave_all`: leave every joined room, drop the per-socket
registry entries, then broadcast the leave block for each room whose removal
was global (reading the peer set from the final state). -/
def Mgr.leave_all (s : Mgr) (ws : Conn) : Mgr × List Event :=
  let c := leaveAllCollect ws (s.connRooms ws) s
  let sf := { c.1 with
    conn_rooms := adel ws c.1.conn_rooms,
    ws_username := adel ws c.1.ws_username,
    ws_conn_id := adel ws c.1.ws_conn_id }
  (sf, (c.2.map (fun (p : String × String) => leaveBlock p.1 p.2 (sf.roomConns p.1))).flatten)

-- ---------------------------------------------------------------------------
-- Protocol handler (per-frame branches of websocket_endpoint)
-- ---------------------------------------------------------------------------

/-- A JSON value as found in an inbound frame's field. -/
inductive JVal where
  | str (s : String)
  | num (n : Int)
  | boolean (b : Bool)
  | null
  deriving DecidableEq, Repr

/-- The fields of an inbound frame the modelled handlers read (`msg.get`). -/
structure InMsg where
  room : Option JVal
  message : Option JVal
  deriving DecidableEq, Repr

/-- `isinstance(x, str)` extraction: a string field or nothing. -/
def asStr : Option JVal → Option String
  | some (JVal.str s) => some s
  | _ => none

/-- The chronological history payload sent on join: the reverse of the
most-recent-first page, rendered as chat frames. -/
def historyPayload (db : Db) (room : String) : List ChatPayload :=
  (roomHistoryDesc db room).reverse.map (fun r =>
    ⟨room, r.username.getD "", r.content, r.id, r.created_at⟩)

/-- The `join` branch: validate the room field, ensure room + membership,
register, then emit `joined`, `presence_state`, the history frame when the
room has messages, and the join broadcast block when first-global. -/
def handleJoin (db : Db) (s : Mgr) (ws : Conn) (username : String) (m : InMsg) :
    Db × Mgr × List Event :=
  match asStr m.room with
  | none => (db, s, [Event.send ws (.error "room required")])
  | some room =>
    let db := ensure_room_and_membership db room username
    let t := s.join room ws username
    let users_list := presenceUsers room t.1.store
    let evHist :=
      if roomHistoryDesc db room = [] then []
      else [Event.send ws (.history room (historyPayload db room))]
    let evDiff := if t.2 then joinBlock room username (t.1.roomConns room) ws else []
    (db, t.1, Event.send ws (.joined room) :: Event.send ws (.presence_state room users_list)
              :: (evHist ++ evDiff))

/-- The `leave` branch: silently ignored unless the room field is a string and
the socket is locally in the room; broadcast the leave block only when the
removal was global. -/
def handleLeave (db : Db) (s : Mgr) (ws : Conn) (m : InMsg) : Db × Mgr × List Event :=
  match asStr m.room with
  | none => (db, s, [])
  | some room =>
    if s.in_room ws room then
      let t := s.leave room ws
      if t.2.1 && pyTruthy t.2.2 then
        (db, t.1, leaveBlock room (t.2.2.getD "") (t.1.roomConns room))
      else (db, t.1, [])
    else (db, s, [])

/-- The `chat` branch: reject bad fields / non-local-membership, missing room
row, missing membership row, banned and muted senders with typed errors;
otherwise persist the message and broadcast it to every local member
(including the sender) and the bus. -/
def handleChat (db : Db) (s : Mgr) (ws : Conn) (username : String) (m : InMsg) (now : Nat) :
    Db × Mgr × List Event :=
  match asStr m.room, asStr m.message with
  | some room, some content =>
    if !(s.in_room ws room) then (db, s, [Event.send ws (.error "invalid chat")])
    else if room ∉ db.rooms then (db, s, [Event.send ws (.error "room missing")])
    else
      match aget (room, username) db.members with
      | none => (db, s, [Event.send ws (.error "not a member")])
      | some mem =>
        if mem.is_banned then (db, s, [Event.send ws (.error "banned")])
        else if mem.is_muted then (db, s, [Event.send ws (.error "muted")])
        else
          let mid := db.nextMsgId
          let db' := { db with
            messages := db.messages ++ [⟨mid, room, some username, content, now⟩],
            nextMsgId := mid + 1 }
          let payload : ChatPayload := ⟨room, username, content, mid, now⟩
          (db', s, (s.roomConns room).map (fun p => Event.send p (.chat payload))
                    ++ [Event.publish room (.chat payload)])
  | _, _ => (db, s, [Event.send ws (.error "invalid chat")])

/-- An inbound frame whose `room` field is the given string. -/
def roomMsg (room : String) : InMsg := ⟨some (JVal.str room), none⟩

/-- A sequence of join frames for one room and username from the listed
sockets, processed in order; events are concatenated in program order. -/
def joinSeq (room username : String) : List Conn → Db → Mgr → Db × Mgr × List Event
  | [], db, s => (db, s, [])
  | ws :: rest, db, s =>
    let a := handleJoin db s ws username (roomMsg room)
    let b := joinSeq room username rest a.1 a.2.1
    (b.1, b.2.1, a.2.2 ++ b.2.2)

/-- A sequence of leave frames for one room from the listed sockets. -/
def leaveSeq (room : String) : List Conn → Db → Mgr → Db × Mgr × List Event
  | [], db, s => (db, s, [])
  | ws :: rest, db, s =>
    let a := handleLeave db s ws (roomMsg room)
    let b := leaveSeq room rest a.1 a.2.1
    (b.1, b.2.1, a.2.2 ++ b.2.2)

/-- Explicit leave frames from one socket for a list of rooms. -/
def leaveFrames (ws : Conn) : List String → Db → Mgr → Db × Mgr × List Event
  | [], db, s => (db, s, [])
  | r :: rest, db, s =>
    let a := handleLeave db s ws (roomMsg r)
    let b := leaveFrames ws rest a.1 a.2.1
    (b.1, b.2.1, a.2.2 ++ b.2.2)

def isJoinDiffPublish : Event → Bool
  | .publish _ (.presence_diff_join _ _) => true
  | _ => false

def isLeaveDiffPublish : Event → Bool
  | .publish _ (.presence_diff_leave _ _) => true
  | _ => false

/-- Number of presence_diff(join) broadcasts in a trace (each broadcast block
publishes the diff to the bus exactly once). -/
def countJoinDiff (evs : List Event) : Nat := (evs.filter isJoinDiffPublish).length

/-- Number of presence_diff(leave) broadcasts in a trace. -/
def countLeaveDiff (evs : List Event) : Nat := (evs.filter isLeaveDiffPublish).length

def isHistoryFrame : Event → Bool
  | .send _ (.history _ _) => true
  | _ => false

-- ---------------------------------------------------------------------------
-- Association-list and set-operation lemmas
-- ---------------------------------------------------------------------------

@[simp] theorem aget_aset_self {α β : Type} [DecidableEq α] (k : α) (v : β)
    (l : List (α × β)) : aget k (aset k v l) = some v := by
  induction l with
  | nil => simp [aget, aset]
  | cons h t ih =>
    obtain ⟨a, b⟩ := h
    by_cases hak : a = k <;> simp [aget, aset, hak, ih]

theorem aget_aset_ne {α β : Type} [DecidableEq α] {k k' : α} (v : β)
    (l : List (α × β)) (h : k' ≠ k) : aget k' (aset k v l) = aget k' l := by
  induction l with
  | nil => simp [aget, aset, Ne.symm h]
  | cons hd t ih =>
    obtain ⟨a, b⟩ := hd
    by_cases hak : a = k
    · subst hak
      simp [aget, aset, Ne.symm h]
    · simp [aget, aset, hak, ih]

@[simp] theorem aget_adel_self {α β : Type} [DecidableEq α] (k : α)
    (l : List (α × β)) : aget k (adel k l) = none := by
  induction l with
  | nil => simp [aget, adel]
  | cons hd t ih =>
    obtain ⟨a, b⟩ := hd
    by_cases hak : a = k <;> simp [aget, adel, hak, ih]

theorem aget_adel_ne {α β : Type} [DecidableEq α] {k k' : α}
    (l : List (α × β)) (h : k' ≠ k) : aget k' (adel k l) = aget k' l := by
  induction l with
  | nil => simp [adel]
  | cons hd t ih =>
    obtain ⟨a, b⟩ := hd
    by_cases hak : a = k
    · subst hak
      simp [aget, adel, Ne.symm h, ih]
    · simp [aget, adel, hak, ih]

theorem sdiscard_of_not_mem {α : Type} [DecidableEq α] {x : α} {l : List α}
    (hx : x ∉ l) : sdiscard x l = l := by
  induction l with
  | nil => rfl
  | cons a t ih =>
    have h1 : x ∉ t := fun ht => hx (List.mem_cons_of_mem _ ht)
    have hax : ¬ a = x := fun e => hx (by simp [e])
    simp [sdiscard, hax, ih h1]

theorem sdiscard_cons_of_nodup {α : Type} [DecidableEq α] (x : α) (l : List α)
    (h : (x :: l).Nodup) : sdiscard x (x :: l) = l := by
  have hx : x ∉ l := (List.nodup_cons.mp h).1
  simp [sdiscard, sdiscard_of_not_mem hx]

@[simp] theorem sadd_ne_nil {α : Type} [DecidableEq α] (x : α) (l : List α) :
    sadd x l ≠ [] := by
  unfold sadd
  split
  · rename_i h
    intro hl
    rw [hl] at h
    exact absurd h (List.not_mem_nil x)
  · simp

-- ---------------------------------------------------------------------------
-- Field-preservation lemmas for the manager operations
-- ---------------------------------------------------------------------------

theorem subscribe_room_eq (s : Mgr) (r : String) :
    s.subscribe_room r =
      { s with room_subscribed :=
          if r ∈ s.room_subscribed then s.room_subscribed else s.room_subscribed ++ [r] } := by
  unfold Mgr.subscribe_room
  split <;> simp_all

theorem start_heartbeat_rooms (s : Mgr) (r : String) (ws : Conn) (u : String) :
    (s.start_heartbeat r ws u).rooms = s.rooms := by
  unfold Mgr.start_heartbeat
  split
  · rfl
  · cases h : aget ws s.ws_conn_id <;> simp [h]

theorem start_heartbeat_conn_rooms (s : Mgr) (r : String) (ws : Conn) (u : String) :
    (s.start_heartbeat r ws u).conn_rooms = s.conn_rooms := by
  unfold Mgr.start_heartbeat
  split
  · rfl
  · cases h : aget ws s.ws_conn_id <;> simp [h]

theorem start_heartbeat_ws_username (s : Mgr) (r : String) (ws : Conn) (u : String) :
    (s.start_heartbeat r ws u).ws_username = s.ws_username := by
  unfold Mgr.start_heartbeat
  split
  · rfl
  · cases h : aget ws s.ws_conn_id <;> simp [h]

theorem start_heartbeat_room_subscribed (s : Mgr) (r : String) (ws : Conn) (u : String) :
    (s.start_heartbeat r ws u).room_subscribed = s.room_subscribed := by
  unfold Mgr.start_heartbeat
  split
  · rfl
  · cases h : aget ws s.ws_conn_id <;> simp [h]

theorem stop_heartbeat_rooms (s : Mgr) (r : String) (ws : Conn) :
    (s.stop_heartbeat r ws).rooms = s.rooms := by
  unfold Mgr.stop_heartbeat
  cases h1 : aget ws s.ws_username <;> cases h2 : aget ws s.ws_conn_id <;> simp [h1, h2]
  split <;> rfl

theorem stop_heartbeat_conn_rooms (s : Mgr) (r : String) (ws : Conn) :
    (s.stop_heartbeat r ws).conn_rooms = s.conn_rooms := by
  unfold Mgr.stop_heartbeat
  cases h1 : aget ws s.ws_username <;> cases h2 : aget ws s.ws_conn_id <;> simp [h1, h2]
  split <;> rfl

theorem stop_heartbeat_ws_username (s : Mgr) (r : String) (ws : Conn) :
    (s.stop_heartbeat r ws).ws_username = s.ws_username := by
  unfold Mgr.stop_heartbeat
  cases h1 : aget ws s.ws_username <;> cases h2 : aget ws s.ws_conn_id <;> simp [h1, h2]
  split <;> rfl

theorem stop_heartbeat_ws_conn_id (s : Mgr) (r : String) (ws : Conn) :
    (s.stop_heartbeat r ws).ws_conn_id = s.ws_conn_id := by
  unfold Mgr.stop_heartbeat
  cases h1 : aget ws s.ws_username <;> cases h2 : aget ws s.ws_conn_id <;> simp [h1, h2]
  split <;> rfl

theorem stop_heartbeat_room_subscribed (s : Mgr) (r : String) (ws : Conn) :
    (s.stop_heartbeat r ws).room_subscribed = s.room_subscribed := by
  unfold Mgr.stop_heartbeat
  cases h1 : aget ws s.ws_username <;> cases h2 : aget ws s.ws_conn_id <;> simp [h1, h2]
  split <;> rfl

theorem mem_sadd_self {α : Type} [DecidableEq α] (x : α) (l : List α) :
    x ∈ sadd x l := by
  unfold sadd
  split
  · assumption
  · simp

theorem join_conn_rooms (s : Mgr) (room : String) (ws : Conn) (u : String) :
    ((s.join room ws u).1).conn_rooms = aset ws (sadd room (s.connRooms ws)) s.conn_rooms := by
  unfold Mgr.join
  simp only [subscribe_room_eq]
  split <;> simp [start_heartbeat_conn_rooms, Mgr.connRooms]

-- ---------------------------------------------------------------------------
-- C6: presence key layout
-- ---------------------------------------------------------------------------

/-- C6 counterexample: the heartbeat key for room `r`, user `u`, connection `c`
is not `"presence:" ++ r ++ ":" ++ u ++ ":" ++ c` — the code prefixes keys with
`presence:hb:`, not `presence:`. -/
theorem C6_key_layout_counterexample :
    heartbeat_key "r" "u" "c" ≠ "presence:" ++ "r" ++ ":" ++ "u" ++ ":" ++ "c" := by
  decide

/-- C6 (amended): every PresenceRecord key has the layout
`presence:hb:<room>:<username>:<connectionId>`, and the write performed when a
heartbeat starts uses that key with a TTL expressed in milliseconds
(`HEARTBEAT_TTL_MS = (HEARTBEAT_INTERVAL + 5) * 1000`). -/
theorem C6_key_layout :
    (∀ room u c, heartbeat_key room u c = "presence:hb:" ++ room ++ ":" ++ u ++ ":" ++ c)
    ∧ HEARTBEAT_TTL_MS = (HEARTBEAT_INTERVAL + 5) * 1000
    ∧ (∀ (s : Mgr) room ws u, (ws, room) ∉ s.heartbeat_tasks →
        ∃ cid, (s.start_heartbeat room ws u).store =
          psetex (heartbeat_key room u cid) HEARTBEAT_TTL_MS s.store) := by
  refine ⟨fun room u c => rfl, rfl, ?_⟩
  intro s room ws u htask
  unfold Mgr.start_heartbeat
  rw [if_neg htask]
  cases h : aget ws s.ws_conn_id with
  | some c => exact ⟨c, by simp [h]⟩
  | none => exact ⟨connIdOf s.nextId, by simp [h]⟩

/-- C6 witness: the layout and the store write at a concrete input. -/
theorem C6_key_layout_witness :
    heartbeat_key "r" "u" "c" = "presence:hb:" ++ "r" ++ ":" ++ "u" ++ ":" ++ "c"
    ∧ (1, "r") ∉ Mgr.init.heartbeat_tasks
    ∧ ∃ cid, (Mgr.init.start_heartbeat "r" 1 "u").store =
        psetex (heartbeat_key "r" "u" cid) HEARTBEAT_TTL_MS Mgr.init.store :=
  ⟨C6_key_layout.1 "r" "u" "c", by decide,
   C6_key_layout.2.2 Mgr.init "r" 1 "u" (by decide)⟩

-- ---------------------------------------------------------------------------
-- C8: join frame validation
-- ---------------------------------------------------------------------------

/-- C8 counterexample: a join frame whose room is the empty string is accepted,
not rejected — the handler only checks `isinstance(room, str)`, so the socket
gets a `joined` ack for room `""` and the registry and store change. -/
theorem C8_empty_room_counterexample :
    (handleJoin Db.init Mgr.init 1 "alice" (roomMsg "")).2.2.head? =
      some (Event.send 1 (Frame.joined ""))
    ∧ (handleJoin Db.init Mgr.init 1 "alice" (roomMsg "")).2.1 ≠ Mgr.init := by
  decide

/-- C8 (amended): a join frame is accepted (registered locally, `joined` ack
sent) exactly when its room field is a string — including the empty string; a
join whose room is missing or not a string is rejected with an error frame and
no registry, subscription, presence-store or persistence change. -/
theorem C8_join_validation (db : Db) (s : Mgr) (ws : Conn) (u : String) (m : InMsg) :
    (asStr m.room = none →
      handleJoin db s ws u m = (db, s, [Event.send ws (.error "room required")]))
    ∧ (∀ room, asStr m.room = some room →
        (handleJoin db s ws u m).2.2.head? = some (Event.send ws (.joined room))
        ∧ ((handleJoin db s ws u m).2.1).in_room ws room = true) := by
  constructor
  · intro h
    unfold handleJoin
    rw [h]
  · intro room h
    unfold handleJoin
    rw [h]
    refine ⟨rfl, ?_⟩
    simp only [Mgr.in_room, join_conn_rooms, Mgr.connRooms, aget_aset_self,
      Option.getD_some, decide_eq_true_eq]
    exact mem_sadd_self room _

/-- C8 witness: a missing room field is rejected; an empty-string room is
accepted, at concrete inputs. -/
theorem C8_join_validation_witness :
    handleJoin Db.init Mgr.init 1 "alice" ⟨none, none⟩
      = (Db.init, Mgr.init, [Event.send 1 (.error "room required")])
    ∧ ((handleJoin Db.init Mgr.init 1 "alice" (roomMsg "")).2.2.head?
        = some (Event.send 1 (Frame.joined ""))
      ∧ ((handleJoin Db.init Mgr.init 1 "alice" (roomMsg "")).2.1).in_room 1 "" = true) :=
  ⟨(C8_join_validation Db.init Mgr.init 1 "alice" ⟨none, none⟩).1 rfl,
   (C8_join_validation Db.init Mgr.init 1 "alice" (roomMsg "")).2 "" rfl⟩

-- ---------------------------------------------------------------------------
-- C10: silent leave of an unjoined room
-- ---------------------------------------------------------------------------

/-- C10: a leave frame whose room is not a string, or that names a room the
connection has not joined, is silently ignored — no reply of any kind, no
registry, subscription, presence-store or persistence change. -/
theorem C10_leave_silently_ignored (db : Db) (s : Mgr) (ws : Conn) (m : InMsg)
    (h : asStr m.room = none ∨ ∃ room, asStr m.room = some room ∧ s.in_room ws room = false) :
    handleLeave db s ws m = (db, s, []) := by
  rcases h with h | ⟨room, h, hin⟩
  · unfold handleLeave
    rw [h]
  · unfold handleLeave
    rw [h]
    simp [hin]

/-- C10 witness: leave of an unjoined room at a concrete state. -/
theorem C10_leave_silently_ignored_witness :
    handleLeave Db.init Mgr.init 1 (roomMsg "lobby") = (Db.init, Mgr.init, []) :=
  C10_leave_silently_ignored Db.init Mgr.init 1 (roomMsg "lobby")
    (Or.inr ⟨"lobby", rfl, by decide⟩)

-- ---------------------------------------------------------------------------
-- C5: join reply sequence and history
-- ---------------------------------------------------------------------------

instance : IsTotal MsgRow byNewest :=
  ⟨fun a b => Nat.le_total b.created_at a.created_at⟩

instance : IsTrans MsgRow byNewest :=
  ⟨fun _ _ _ h1 h2 => Nat.le_trans h2 h1⟩

theorem roomHistoryDesc_eq_nil (db : Db) (room : String) :
    roomHistoryDesc db room = [] ↔
      db.messages.filter (fun mr => mr.room = room) = [] := by
  unfold roomHistoryDesc
  have hperm := List.perm_insertionSort byNewest
      (db.messages.filter (fun mr => mr.room = room))
  constructor
  · intro h
    cases hs : (db.messages.filter (fun mr => mr.room = room)).insertionSort byNewest with
    | nil => exact ((hs ▸ hperm).symm.eq_nil)
    | cons a t =>
      rw [hs] at h
      simp [HISTORY_LIMIT] at h
  · intro h
    rw [h]
    rfl

theorem historyPayload_chronological (db : Db) (room : String) :
    (historyPayload db room).Pairwise (fun a b => a.ts ≤ b.ts) := by
  unfold historyPayload
  have hs : ((db.messages.filter (fun mr => mr.room = room)).insertionSort byNewest).Sorted
      byNewest := List.sorted_insertionSort byNewest _
  have ht : (roomHistoryDesc db room).Pairwise byNewest :=
    List.Pairwise.sublist (List.take_sublist _ _) hs
  rw [List.pairwise_map, List.pairwise_reverse]
  exact ht.imp (fun h => h)

/-- C5 counterexample: joining a room with no messages does not produce a
history frame at all — the handler only sends `history` when rows are
non-empty.  The join itself succeeds (`joined` ack is the first frame). -/
theorem C5_empty_history_counterexample :
    ((handleJoin Db.init Mgr.init 1 "alice" (roomMsg "lobby")).2.2.filter isHistoryFrame) = []
    ∧ (handleJoin Db.init Mgr.init 1 "alice" (roomMsg "lobby")).2.2.head?
        = some (Event.send 1 (Frame.joined "lobby")) := by
  decide

/-- C5 (amended): on a successful join the joining socket receives, in order,
a `joined` ack, a `presence_state` snapshot, and then — only when the room has
at least one message — a history frame whose messages are the most-recent-first
page reordered to chronological (non-decreasing timestamp) order; a room with
no messages yields no history frame. -/
theorem C5_join_reply_sequence (db : Db) (s : Mgr) (ws : Conn) (u : String)
    (m : InMsg) (room : String) (h : asStr m.room = some room) :
    (∃ blk, (handleJoin db s ws u m).2.2
        = Event.send ws (.joined room)
          :: Event.send ws (.presence_state room
               (presenceUsers room ((handleJoin db s ws u m).2.1).store))
          :: ((if roomHistoryDesc (ensure_room_and_membership db room u) room = [] then []
               else [Event.send ws (.history room
                      (historyPayload (ensure_room_and_membership db room u) room))]) ++ blk))
    ∧ (roomHistoryDesc (ensure_room_and_membership db room u) room = [] ↔
        (ensure_room_and_membership db room u).messages.filter (fun mr => mr.room = room) = [])
    ∧ (historyPayload (ensure_room_and_membership db room u) room).Pairwise
        (fun a b => a.ts ≤ b.ts) := by
  refine ⟨?_, roomHistoryDesc_eq_nil _ _, historyPayload_chronological _ _⟩
  simp only [handleJoin, h]
  exact ⟨_, rfl⟩

/-- Concrete database used by the C5 witness: room "lobby" with two messages. -/
def dbC5 : Db :=
  ⟨["lobby"], [], [⟨1, "lobby", some "bob", "hi", 10⟩, ⟨2, "lobby", some "bob", "yo", 20⟩], 3⟩

/-- C5 witness: the reply shape, history-emptiness equivalence and
chronological ordering at a concrete non-empty room. -/
theorem C5_join_reply_sequence_witness :
    (roomHistoryDesc (ensure_room_and_membership dbC5 "lobby" "alice") "lobby" = [] ↔
      (ensure_room_and_membership dbC5 "lobby" "alice").messages.filter
        (fun mr => mr.room = "lobby") = [])
    ∧ (historyPayload (ensure_room_and_membership dbC5 "lobby" "alice") "lobby").Pairwise
        (fun a b => a.ts ≤ b.ts)
    ∧ ∃ blk, (handleJoin dbC5 Mgr.init 1 "alice" (roomMsg "lobby")).2.2
        = Event.send 1 (.joined "lobby")
          :: Event.send 1 (.presence_state "lobby"
               (presenceUsers "lobby"
                 ((handleJoin dbC5 Mgr.init 1 "alice" (roomMsg "lobby")).2.1).store))
          :: ((if roomHistoryDesc (ensure_room_and_membership dbC5 "lobby" "alice") "lobby" = []
               then []
               else [Event.send 1 (.history "lobby"
                      (historyPayload (ensure_room_and_membership dbC5 "lobby" "alice") "lobby"))])
              ++ blk) :=
  ⟨(C5_join_reply_sequence dbC5 Mgr.init 1 "alice" (roomMsg "lobby") "lobby" rfl).2.1,
   (C5_join_reply_sequence dbC5 Mgr.init 1 "alice" (roomMsg "lobby") "lobby" rfl).2.2,
   (C5_join_reply_sequence dbC5 Mgr.init 1 "alice" (roomMsg "lobby") "lobby" rfl).1⟩

-- ---------------------------------------------------------------------------
-- C7: chat authorization errors are atomic
-- ---------------------------------------------------------------------------

/-- C7: a chat frame from a non-member, banned, or muted sender yields exactly
one typed error frame to the sender; the database (no message persisted), the
manager state (registry, subscriptions, presence store) are unchanged, and no
chat event is delivered to any peer locally or published on the bus. -/
theorem C7_chat_authorization_atomic (db : Db) (s : Mgr) (ws : Conn) (u : String)
    (m : InMsg) (now : Nat) (room content : String)
    (hroom : asStr m.room = some room) (hmsg : asStr m.message = some content)
    (hin : s.in_room ws room = true) (hex : room ∈ db.rooms) :
    (aget (room, u) db.members = none →
      handleChat db s ws u m now = (db, s, [Event.send ws (.error "not a member")]))
    ∧ (∀ mem, aget (room, u) db.members = some mem → mem.is_banned = true →
        handleChat db s ws u m now = (db, s, [Event.send ws (.error "banned")]))
    ∧ (∀ mem, aget (room, u) db.members = some mem → mem.is_banned = false →
        mem.is_muted = true →
        handleChat db s ws u m now = (db, s, [Event.send ws (.error "muted")])) := by
  refine ⟨fun hmem => ?_, fun mem hmem hb => ?_, fun mem hmem hb hm => ?_⟩
  all_goals
    unfold handleChat
    rw [hroom, hmsg]
    simp [hin, hex, hmem]
  · simp [hb]
  · simp [hb, hm]

/-- C7 witness: a banned member's chat at a concrete state. -/
theorem C7_chat_authorization_atomic_witness :
    handleChat ⟨["lobby"], [(("lobby", "alice"), ⟨true, false⟩)], [], 0⟩
        ⟨[("lobby", [1])], [(1, ["lobby"])], [(1, "alice")], ["lobby"], [(1, "lobby")],
         [(1, "a")], 1, []⟩ 1 "alice" (⟨some (JVal.str "lobby"), some (JVal.str "hi")⟩) 5
      = (⟨["lobby"], [(("lobby", "alice"), ⟨true, false⟩)], [], 0⟩,
         ⟨[("lobby", [1])], [(1, ["lobby"])], [(1, "alice")], ["lobby"], [(1, "lobby")],
          [(1, "a")], 1, []⟩, [Event.send 1 (.error "banned")]) :=
  (C7_chat_authorization_atomic ⟨["lobby"], [(("lobby", "alice"), ⟨true, false⟩)], [], 0⟩
      ⟨[("lobby", [1])], [(1, ["lobby"])], [(1, "alice")], ["lobby"], [(1, "lobby")],
       [(1, "a")], 1, []⟩ 1 "alice" ⟨some (JVal.str "lobby"), some (JVal.str "hi")⟩ 5
      "lobby" "hi" rfl rfl (by decide) (by decide)).2.1 ⟨true, false⟩ (by decide) rfl

-- ---------------------------------------------------------------------------
-- C9: subscription invariant
-- ---------------------------------------------------------------------------

theorem not_mem_sdiscard_self {α : Type} [DecidableEq α] (x : α) (l : List α) :
    x ∉ sdiscard x l := by
  induction l with
  | nil => simp [sdiscard]
  | cons a t ih =>
    by_cases hax : a = x
    · simpa [sdiscard, hax] using ih
    · simp only [sdiscard, if_neg hax, List.mem_cons]
      rintro (he | hm)
      · exact hax he.symm
      · exact ih hm

theorem mem_sdiscard_ne {α : Type} [DecidableEq α] {x y : α} (l : List α) (h : y ≠ x) :
    y ∈ sdiscard x l ↔ y ∈ l := by
  induction l with
  | nil => simp [sdiscard]
  | cons a t ih =>
    by_cases hax : a = x
    · subst hax
      simp [sdiscard, ih, h]
    · simp [sdiscard, hax, ih]

theorem join_rooms (s : Mgr) (room : String) (ws : Conn) (u : String) :
    ((s.join room ws u).1).rooms = aset room (sadd ws (s.roomConns room)) s.rooms := by
  unfold Mgr.join
  simp only [subscribe_room_eq]
  split <;> simp [start_heartbeat_rooms, Mgr.roomConns]

theorem join_room_subscribed (s : Mgr) (room : String) (ws : Conn) (u : String) :
    ((s.join room ws u).1).room_subscribed =
      if room ∈ s.room_subscribed then s.room_subscribed
      else s.room_subscribed ++ [room] := by
  unfold Mgr.join
  simp only [subscribe_room_eq]
  split <;> simp [start_heartbeat_room_subscribed]

/-- A process is subscribed to a room's channel iff it has at least one local
connection in that room. -/
def SubInv (s : Mgr) : Prop :=
  ∀ room, room ∈ s.room_subscribed ↔ s.roomConns room ≠ []

theorem SubInv_unsubscribe (s : Mgr) (room : String)
    (ha : ∀ r, r ≠ room → (r ∈ s.room_subscribed ↔ s.roomConns r ≠ []))
    (hb : s.roomConns room ≠ [] → room ∈ s.room_subscribed) :
    SubInv (s.unsubscribe_room_if_empty room) := by
  intro r
  unfold Mgr.unsubscribe_room_if_empty
  split
  · rename_i hc
    by_cases hr : r = room
    · subst hr
      constructor
      · intro hmem
        exact absurd hmem (not_mem_sdiscard_self r s.room_subscribed)
      · intro hne
        exact absurd hc.2 (by simpa [Mgr.roomConns] using hne)
    · constructor
      · intro hmem
        exact (ha r hr).mp ((mem_sdiscard_ne _ hr).mp hmem)
      · intro hne
        exact (mem_sdiscard_ne _ hr).mpr ((ha r hr).mpr hne)
  · rename_i hc
    by_cases hr : r = room
    · subst hr
      constructor
      · intro hmem hconn
        exact hc ⟨hmem, by simpa [Mgr.roomConns] using hconn⟩
      · exact hb
    · exact ha r hr

theorem SubInv_join (s : Mgr) (room : String) (ws : Conn) (u : String) (h : SubInv s) :
    SubInv ((s.join room ws u).1) := by
  intro r
  have hrooms := join_rooms s room ws u
  have hsub := join_room_subscribed s room ws u
  by_cases hr : r = room
  · subst hr
    constructor
    · intro _
      simp [Mgr.roomConns, hrooms, aget_aset_self]
    · intro _
      rw [hsub]
      split
      · assumption
      · simp
  · have hconn : ((s.join room ws u).1).roomConns r = s.roomConns r := by
      simp [Mgr.roomConns, hrooms, aget_aset_ne _ _ hr]
    have hmem : r ∈ ((s.join room ws u).1).room_subscribed ↔ r ∈ s.room_subscribed := by
      rw [hsub]
      split
      · exact Iff.rfl
      · simp [hr]
    rw [hconn]
    exact hmem.trans (h r)

/-- The state returned by `leave`, per case of the rooms-map update. -/
theorem leave_fst_none (s : Mgr) (room : String) (ws : Conn)
    (hm : aget room s.rooms = none) :
    ((s.leave room ws).1) =
      Mgr.unsubscribe_room_if_empty
        (Mgr.stop_heartbeat
          { s with conn_rooms := aset ws (sdiscard room (s.connRooms ws)) s.conn_rooms }
          room ws) room := by
  unfold Mgr.leave
  rw [hm]

theorem leave_fst_del (s : Mgr) (room : String) (ws : Conn) (conns : List Conn)
    (hm : aget room s.rooms = some conns) (hd : sdiscard ws conns = []) :
    ((s.leave room ws).1) =
      Mgr.unsubscribe_room_if_empty
        (Mgr.stop_heartbeat
          { s with
            rooms := adel room s.rooms,
            conn_rooms := aset ws (sdiscard room (s.connRooms ws)) s.conn_rooms }
          room ws) room := by
  unfold Mgr.leave
  rw [hm]
  simp [hd, Mgr.connRooms]

theorem leave_fst_keep (s : Mgr) (room : String) (ws : Conn) (conns : List Conn)
    (hm : aget room s.rooms = some conns) (hd : ¬ sdiscard ws conns = []) :
    ((s.leave room ws).1) =
      Mgr.unsubscribe_room_if_empty
        (Mgr.stop_heartbeat
          { s with
            rooms := aset room (sdiscard ws conns) s.rooms,
            conn_rooms := aset ws (sdiscard room (s.connRooms ws)) s.conn_rooms }
          room ws) room := by
  unfold Mgr.leave
  rw [hm]
  simp [hd, Mgr.connRooms]

theorem SubInv_leave (s : Mgr) (room : String) (ws : Conn) (h : SubInv s) :
    SubInv ((s.leave room ws).1) := by
  cases hm : aget room s.rooms with
  | none =>
    rw [leave_fst_none s room ws hm]
    apply SubInv_unsubscribe
    · intro r hr
      simpa [Mgr.roomConns, stop_heartbeat_room_subscribed, stop_heartbeat_rooms] using h r
    · intro hne
      simp only [Mgr.roomConns, stop_heartbeat_rooms] at hne
      rw [hm] at hne
      exact absurd rfl hne
  | some conns =>
    by_cases hd : sdiscard ws conns = []
    · rw [leave_fst_del s room ws conns hm hd]
      apply SubInv_unsubscribe
      · intro r hr
        simpa [Mgr.roomConns, stop_heartbeat_room_subscribed, stop_heartbeat_rooms,
          aget_adel_ne _ hr] using h r
      · intro hne
        simp only [Mgr.roomConns, stop_heartbeat_rooms] at hne
        rw [aget_adel_self] at hne
        exact absurd rfl hne
    · rw [leave_fst_keep s room ws conns hm hd]
      apply SubInv_unsubscribe
      · intro r hr
        simpa [Mgr.roomConns, stop_heartbeat_room_subscribed, stop_heartbeat_rooms,
          aget_aset_ne _ _ hr] using h r
      · intro _
        simp only [stop_heartbeat_room_subscribed]
        refine (h room).mpr ?_
        simp only [Mgr.roomConns, hm, Option.getD_some]
        intro hc
        exact hd (by rw [hc]; rfl)

theorem leaveAllCollect_fst (ws : Conn) (r : String) (rest : List String) (s : Mgr) :
    (leaveAllCollect ws (r :: rest) s).1 = (leaveAllCollect ws rest ((s.leave r ws).1)).1 := by
  by_cases hc : ((s.leave r ws).2.1 && pyTruthy (s.leave r ws).2.2) = true <;>
    simp [leaveAllCollect, hc]

theorem SubInv_collect (ws : Conn) : ∀ (rs : List String) (s : Mgr), SubInv s →
    SubInv ((leaveAllCollect ws rs s).1)
  | [], _, h => h
  | r :: rest, s, h => by
    rw [leaveAllCollect_fst]
    exact SubInv_collect ws rest _ (SubInv_leave s r ws h)

theorem leave_all_fst (s : Mgr) (ws : Conn) :
    (s.leave_all ws).1 =
      { (leaveAllCollect ws (s.connRooms ws) s).1 with
          conn_rooms := adel ws ((leaveAllCollect ws (s.connRooms ws) s).1).conn_rooms,
          ws_username := adel ws ((leaveAllCollect ws (s.connRooms ws) s).1).ws_username,
          ws_conn_id := adel ws ((leaveAllCollect ws (s.connRooms ws) s).1).ws_conn_id } := by
  rfl

theorem SubInv_leave_all (s : Mgr) (ws : Conn) (h : SubInv s) :
    SubInv ((s.leave_all ws).1) := by
  rw [leave_all_fst]
  intro r
  exact SubInv_collect ws (s.connRooms ws) s h r

/-- C9: the subscription invariant — a process is subscribed to a room's bus
channel iff at least one local connection is registered in that room — holds
initially and is preserved by every completed join, leave, and leaveAll. -/
theorem C9_subscription_invariant :
    SubInv Mgr.init
    ∧ (∀ (s : Mgr) room ws u, SubInv s → SubInv ((s.join room ws u).1))
    ∧ (∀ (s : Mgr) room ws, SubInv s → SubInv ((s.leave room ws).1))
    ∧ (∀ (s : Mgr) ws, SubInv s → SubInv ((s.leave_all ws).1)) := by
  refine ⟨?_, SubInv_join, SubInv_leave, SubInv_leave_all⟩
  intro r
  simp [Mgr.init, Mgr.roomConns, aget]

/-- C9 witness: the invariant after a concrete join from the initial state. -/
theorem C9_subscription_invariant_witness :
    SubInv ((Mgr.init.join "lobby" 1 "alice").1) :=
  C9_subscription_invariant.2.1 Mgr.init "lobby" 1 "alice" C9_subscription_invariant.1

-- ---------------------------------------------------------------------------
-- C4: presence_state snapshot
-- ---------------------------------------------------------------------------

theorem starts_append (p r : List Char) : starts p (p ++ r) = true := by
  induction p with
  | nil => rfl
  | cons a as ih => simp [starts, ih]

theorem splitOnChar_ne_nil (c : Char) (l : List Char) : splitOnChar c l ≠ [] := by
  cases l with
  | nil => simp [splitOnChar]
  | cons x xs =>
    unfold splitOnChar
    split
    · simp
    · split <;> simp

theorem splitOnChar_no_delim (c : Char) (l : List Char) (h : c ∉ l) :
    splitOnChar c l = [l] := by
  induction l with
  | nil => rfl
  | cons x xs ih =>
    have hx : ¬ x = c := fun e => h (by simp [e])
    have hxs : c ∉ xs := fun hm => h (List.mem_cons_of_mem _ hm)
    unfold splitOnChar
    rw [ih hxs]
    simp [hx]

theorem splitOnChar_append (c : Char) (xs ys : List Char) (h : c ∉ xs) :
    splitOnChar c (xs ++ c :: ys) = xs :: splitOnChar c ys := by
  induction xs with
  | nil =>
    simp only [List.nil_append]
    conv_lhs => rw [splitOnChar]
    cases hy : splitOnChar c ys with
    | nil => exact absurd hy (splitOnChar_ne_nil c ys)
    | cons a t => simp
  | cons x xt ih =>
    have hx : ¬ x = c := fun e => h (by simp [e])
    have hxt : c ∉ xt := fun hm => h (List.mem_cons_of_mem _ hm)
    simp only [List.cons_append]
    conv_lhs => rw [splitOnChar]
    rw [ih hxt]
    simp [hx]

theorem heartbeat_key_data (room u cid : String) :
    (heartbeat_key room u cid).data =
      "presence".data ++ ':' ::
        ("hb".data ++ ':' :: (room.data ++ ':' :: (u.data ++ ':' :: cid.data))) := by
  have hp : ("presence:hb:" : String).data
      = "presence".data ++ ':' :: ("hb".data ++ [':']) := rfl
  have hc : (":" : String).data = [':'] := rfl
  simp [heartbeat_key, HEARTBEAT_KEY_PREFIX, String.data_append, hp, hc, List.append_assoc]

theorem roomPattern_data (room : String) :
    (roomPattern room).data =
      "presence".data ++ ':' :: ("hb".data ++ ':' :: (room.data ++ [':'])) := by
  have hp : ("presence:hb:" : String).data
      = "presence".data ++ ':' :: ("hb".data ++ [':']) := rfl
  have hc : (":" : String).data = [':'] := rfl
  simp [roomPattern, HEARTBEAT_KEY_PREFIX, String.data_append, hp, hc, List.append_assoc]

theorem userPattern_data (room u : String) :
    (userPattern room u).data =
      "presence".data ++ ':' ::
        ("hb".data ++ ':' :: (room.data ++ ':' :: (u.data ++ [':']))) := by
  have hp : ("presence:hb:" : String).data
      = "presence".data ++ ':' :: ("hb".data ++ [':']) := rfl
  have hc : (":" : String).data = [':'] := rfl
  simp [userPattern, HEARTBEAT_KEY_PREFIX, String.data_append, hp, hc, List.append_assoc]

theorem keyMatches_roomPattern (room u cid : String) :
    keyMatches (roomPattern room) (heartbeat_key room u cid) = true := by
  have hdec : (heartbeat_key room u cid).data
      = (roomPattern room).data ++ (u.data ++ ':' :: cid.data) := by
    rw [heartbeat_key_data, roomPattern_data]
    simp [List.append_assoc]
  rw [keyMatches, hdec]
  exact starts_append _ _

theorem keyMatches_userPattern (room u cid : String) :
    keyMatches (userPattern room u) (heartbeat_key room u cid) = true := by
  have hdec : (heartbeat_key room u cid).data
      = (userPattern room u).data ++ cid.data := by
    rw [heartbeat_key_data, userPattern_data]
    simp [List.append_assoc]
  rw [keyMatches, hdec]
  exact starts_append _ _

theorem extractUser_heartbeat (room u cid : String)
    (hr : ':' ∉ room.data) (hu : ':' ∉ u.data) :
    extractUser (heartbeat_key room u cid) = some u := by
  have hps : ':' ∉ ("presence" : String).data := by decide
  have hhb : ':' ∉ ("hb" : String).data := by decide
  have hsplit : splitOnChar ':' (heartbeat_key room u cid).data
      = "presence".data :: "hb".data :: room.data :: u.data :: splitOnChar ':' cid.data := by
    rw [heartbeat_key_data]
    rw [splitOnChar_append _ _ _ hps, splitOnChar_append _ _ _ hhb,
        splitOnChar_append _ _ _ hr, splitOnChar_append _ _ _ hu]
  have hlen : 5 ≤ (splitOnChar ':' (heartbeat_key room u cid).data).length := by
    rw [hsplit]
    have := splitOnChar_ne_nil ':' cid.data
    cases hcid : splitOnChar ':' cid.data with
    | nil => exact absurd hcid this
    | cons a t => simp
  unfold extractUser
  rw [if_pos (by exact hlen)]
  rw [hsplit]
  rfl

theorem join_store_writes (s : Mgr) (room : String) (ws : Conn) (u : String)
    (h : (ws, room) ∉ s.heartbeat_tasks) :
    ∃ cid, ((s.join room ws u).1).store
      = psetex (heartbeat_key room u cid) HEARTBEAT_TTL_MS s.store := by
  unfold Mgr.join
  simp only [subscribe_room_eq]
  by_cases hid : (aget ws s.ws_conn_id).isSome
  · obtain ⟨c, hc⟩ := Option.isSome_iff_exists.mp hid
    refine ⟨c, ?_⟩
    simp [Mgr.start_heartbeat, h, hc]
  · refine ⟨connIdOf s.nextId, ?_⟩
    simp only [Option.not_isSome_iff_eq_none] at hid
    simp [Mgr.start_heartbeat, h, hid, aget_aset_self]

theorem mem_presenceUsers {room : String} {st : Store} {u : String} :
    u ∈ presenceUsers room st ↔
      ∃ k t, (k, t) ∈ st ∧ keyMatches (roomPattern room) k = true
        ∧ extractUser k = some u := by
  unfold presenceUsers scanKeys
  rw [(List.perm_insertionSort _ _).mem_iff, List.mem_dedup]
  constructor
  · intro hm
    obtain ⟨k, hk, he⟩ := List.mem_filterMap.mp hm
    obtain ⟨hk1, hk2⟩ := List.mem_filter.mp hk
    obtain ⟨kt, hkt, hk'⟩ := List.mem_map.mp hk1
    exact ⟨k, kt.2, by rw [← hk']; exact hkt, hk2, he⟩
  · rintro ⟨k, t, hkt, hm, he⟩
    exact List.mem_filterMap.mpr
      ⟨k, List.mem_filter.mpr ⟨List.mem_map.mpr ⟨(k, t), hkt, rfl⟩, hm⟩, he⟩

theorem presenceUsers_sorted (room : String) (st : Store) :
    (presenceUsers room st).Sorted (· ≤ ·) :=
  List.sorted_insertionSort _ _

theorem presenceUsers_nodup (room : String) (st : Store) :
    (presenceUsers room st).Nodup :=
  ((List.perm_insertionSort _ _).nodup_iff).mpr (List.nodup_dedup _)

theorem presenceUsers_ignores_malformed (room : String) (st : Store) (k : String) (t : Nat)
    (h : extractUser k = none) :
    presenceUsers room (st ++ [(k, t)]) = presenceUsers room st := by
  unfold presenceUsers scanKeys
  rw [List.map_append, List.filter_append, List.filterMap_append]
  have : ((([(k, t)] : Store).map Prod.fst).filter (keyMatches (roomPattern room))).filterMap
      extractUser = [] := by
    simp only [List.map_cons, List.map_nil, List.filter]
    cases keyMatches (roomPattern room) k <;> simp [h]
  rw [this, List.append_nil]

/-- C4 counterexample: the joining user is *not* always included in its own
`presence_state` snapshot.  Room names are never validated, and for a room
name containing a colon the key `presence:hb:a:b:alice:0` splits into six
fields, so the scan's `parts[3]` extraction returns the tail of the room name
(`"b"`) instead of the username: joining room `"a:b"` as `"alice"` from the
initial state yields the snapshot `["b"]`, which omits `"alice"`. -/
theorem C4_presence_snapshot_counterexample :
    (∃ tail, (handleJoin Db.init Mgr.init 1 "alice" (roomMsg "a:b")).2.2
        = Event.send 1 (.joined "a:b")
          :: Event.send 1 (.presence_state "a:b"
               (presenceUsers "a:b"
                 ((handleJoin Db.init Mgr.init 1 "alice" (roomMsg "a:b")).2.1).store))
          :: tail)
    ∧ "alice" ∉ presenceUsers "a:b"
        ((handleJoin Db.init Mgr.init 1 "alice" (roomMsg "a:b")).2.1).store
    ∧ "b" ∈ presenceUsers "a:b"
        ((handleJoin Db.init Mgr.init 1 "alice" (roomMsg "a:b")).2.1).store := by
  have hst : ((handleJoin Db.init Mgr.init 1 "alice" (roomMsg "a:b")).2.1).store
      = [("presence:hb:a:b:alice:0", 30000)] := by decide
  refine ⟨⟨_, rfl⟩, ?_, ?_⟩
  · intro hmem
    obtain ⟨k, t, hkt, hm, he⟩ := mem_presenceUsers.mp hmem
    rw [hst] at hkt
    simp only [List.mem_singleton, Prod.mk.injEq] at hkt
    rw [hkt.1] at he
    have hb : extractUser "presence:hb:a:b:alice:0" = some "b" := by decide
    rw [hb] at he
    exact absurd (Option.some.inj he) (by decide)
  · refine mem_presenceUsers.mpr ⟨"presence:hb:a:b:alice:0", 30000, ?_, by decide, by decide⟩
    rw [hst]
    exact List.mem_cons_self _ _

/-- C4 (amended): the `presence_state` frame sent on join lists the sorted,
duplicate-free set of usernames extracted (field 4 of the colon-split key)
from the heartbeat keys matching the room pattern, counting a user once
regardless of connection count, and keys with fewer colon-delimited fields
than expected are skipped without failing; the joining user is included
whenever the room name contains no colon (its key is written synchronously
before the scan) — for a room name containing `':'` the colon-split
extraction misparses the key and the joiner can be omitted from its own
snapshot. -/
theorem C4_presence_snapshot (db : Db) (s : Mgr) (ws : Conn) (u : String) (m : InMsg)
    (room : String) (hroom : asStr m.room = some room)
    (hr : ':' ∉ room.data) (hu : ':' ∉ u.data)
    (htask : (ws, room) ∉ s.heartbeat_tasks) :
    (∃ tail, (handleJoin db s ws u m).2.2
        = Event.send ws (.joined room)
          :: Event.send ws (.presence_state room
               (presenceUsers room ((handleJoin db s ws u m).2.1).store)) :: tail)
    ∧ (presenceUsers room ((handleJoin db s ws u m).2.1).store).Sorted (· ≤ ·)
    ∧ (presenceUsers room ((handleJoin db s ws u m).2.1).store).Nodup
    ∧ u ∈ presenceUsers room ((handleJoin db s ws u m).2.1).store
    ∧ (∀ x, x ∈ presenceUsers room ((handleJoin db s ws u m).2.1).store ↔
        ∃ k t, (k, t) ∈ ((handleJoin db s ws u m).2.1).store
          ∧ keyMatches (roomPattern room) k = true ∧ extractUser k = some x)
    ∧ (∀ st k t, extractUser k = none →
        presenceUsers room (st ++ [(k, t)]) = presenceUsers room st) := by
  have hstate : (handleJoin db s ws u m).2.1 = (s.join room ws u).1 := by
    simp only [handleJoin, hroom]
  have hmem : u ∈ presenceUsers room ((handleJoin db s ws u m).2.1).store := by
    rw [hstate]
    obtain ⟨cid, hcid⟩ := join_store_writes s room ws u htask
    refine mem_presenceUsers.mpr ⟨heartbeat_key room u cid, HEARTBEAT_TTL_MS, ?_, ?_, ?_⟩
    · rw [hcid]
      exact List.mem_cons_self _ _
    · exact keyMatches_roomPattern room u cid
    · exact extractUser_heartbeat room u cid hr hu
  refine ⟨?_, presenceUsers_sorted _ _, presenceUsers_nodup _ _, hmem,
    fun x => mem_presenceUsers, fun st k t h => presenceUsers_ignores_malformed room st k t h⟩
  simp only [handleJoin, hroom]
  exact ⟨_, rfl⟩

/-- C4 witness: presence snapshot properties for a concrete first join. -/
theorem C4_presence_snapshot_witness :
    "alice" ∈ presenceUsers "lobby"
        ((handleJoin Db.init Mgr.init 1 "alice" (roomMsg "lobby")).2.1).store
    ∧ (presenceUsers "lobby"
        ((handleJoin Db.init Mgr.init 1 "alice" (roomMsg "lobby")).2.1).store).Sorted (· ≤ ·)
    ∧ (presenceUsers "lobby"
        ((handleJoin Db.init Mgr.init 1 "alice" (roomMsg "lobby")).2.1).store).Nodup :=
  ⟨(C4_presence_snapshot Db.init Mgr.init 1 "alice" (roomMsg "lobby") "lobby" rfl
      (by decide) (by decide) (by decide)).2.2.2.1,
   (C4_presence_snapshot Db.init Mgr.init 1 "alice" (roomMsg "lobby") "lobby" rfl
      (by decide) (by decide) (by decide)).2.1,
   (C4_presence_snapshot Db.init Mgr.init 1 "alice" (roomMsg "lobby") "lobby" rfl
      (by decide) (by decide) (by decide)).2.2.1⟩

-- ---------------------------------------------------------------------------
-- C1: exactly one presence_diff(join) per user per room
-- ---------------------------------------------------------------------------

theorem join_first_global (s : Mgr) (room : String) (ws : Conn) (u : String) :
    (s.join room ws u).2 = !anyKey (userPattern room u) s.store := by
  unfold Mgr.join
  simp only [subscribe_room_eq]
  split <;> rfl

theorem anyKey_psetex_self (p k : String) (t : Nat) (st : Store)
    (h : keyMatches p k = true) : anyKey p (psetex k t st) = true := by
  unfold anyKey psetex
  exact List.any_eq_true.mpr ⟨k, by simp, h⟩

theorem anyKey_psetex_mono (p k : String) (t : Nat) (st : Store)
    (h : anyKey p st = true) : anyKey p (psetex k t st) = true := by
  unfold anyKey psetex at *
  rcases List.any_eq_true.mp h with ⟨k', hk', hm⟩
  obtain ⟨kt, hmem, he⟩ := List.mem_map.mp hk'
  by_cases hkk : k' = k
  · exact List.any_eq_true.mpr ⟨k, by simp, hkk ▸ hm⟩
  · refine List.any_eq_true.mpr ⟨k', ?_, hm⟩
    simp only [List.map_cons, List.mem_cons]
    right
    refine List.mem_map.mpr ⟨kt, List.mem_filter.mpr ⟨hmem, ?_⟩, he⟩
    simp [he, hkk]

theorem start_heartbeat_store_anyKey (s : Mgr) (room : String) (ws : Conn) (u : String)
    (p : String) (h : anyKey p s.store = true) :
    anyKey p ((s.start_heartbeat room ws u)).store = true := by
  unfold Mgr.start_heartbeat
  split
  · exact h
  · cases hc : aget ws s.ws_conn_id <;> simp only [hc] <;>
      exact anyKey_psetex_mono _ _ _ _ h

theorem join_store_anyKey (s : Mgr) (room : String) (ws : Conn) (u : String)
    (p : String) (h : anyKey p s.store = true) :
    anyKey p ((s.join room ws u).1).store = true := by
  unfold Mgr.join
  simp only [subscribe_room_eq]
  split <;> exact start_heartbeat_store_anyKey _ _ _ _ _ h

theorem countJoinDiff_append (a b : List Event) :
    countJoinDiff (a ++ b) = countJoinDiff a + countJoinDiff b := by
  simp [countJoinDiff, List.filter_append]

theorem countJoinDiff_cons_send (a : Conn) (f : Frame) (evs : List Event) :
    countJoinDiff (Event.send a f :: evs) = countJoinDiff evs := by
  simp [countJoinDiff, List.filter_cons, isJoinDiffPublish]

theorem countJoinDiff_sends (l : List Conn) (f : Conn → Frame) :
    countJoinDiff (l.map fun p => Event.send p (f p)) = 0 := by
  induction l with
  | nil => rfl
  | cons a t ih => rw [List.map_cons, countJoinDiff_cons_send]; exact ih

theorem countJoinDiff_joinBlock (room u : String) (peers : List Conn) (ws : Conn) :
    countJoinDiff (joinBlock room u peers ws) = 1 := by
  unfold joinBlock
  rw [countJoinDiff_append, countJoinDiff_append, countJoinDiff_append,
    countJoinDiff_sends, countJoinDiff_sends]
  simp [countJoinDiff, List.filter, isJoinDiffPublish]

theorem countJoinDiff_opt_send (c : Prop) [Decidable c] (a : Conn) (f : Frame) :
    countJoinDiff (if c then ([] : List Event) else [Event.send a f]) = 0 := by
  split
  · rfl
  · rw [countJoinDiff_cons_send]
    rfl

theorem handleJoin_countJoinDiff (db : Db) (s : Mgr) (ws : Conn) (u : String) (m : InMsg)
    (room : String) (h : asStr m.room = some room) :
    countJoinDiff (handleJoin db s ws u m).2.2
      = if (s.join room ws u).2 then 1 else 0 := by
  simp only [handleJoin, h]
  rw [countJoinDiff_cons_send, countJoinDiff_cons_send, countJoinDiff_append,
    countJoinDiff_opt_send]
  by_cases hfg : (s.join room ws u).2 = true
  · rw [if_pos hfg, if_pos hfg, countJoinDiff_joinBlock]
  · rw [if_neg hfg, if_neg hfg]
    rfl

theorem joinSeq_zero (room u : String) :
    ∀ (conns : List Conn) (db : Db) (s : Mgr),
      anyKey (userPattern room u) s.store = true →
      countJoinDiff (joinSeq room u conns db s).2.2 = 0
      ∧ anyKey (userPattern room u) ((joinSeq room u conns db s).2.1).store = true
  | [], _, _, h => ⟨rfl, h⟩
  | ws :: rest, db, s, h => by
    have hfg : (s.join room ws u).2 = false := by
      rw [join_first_global, h]
      rfl
    have hcount := handleJoin_countJoinDiff db s ws u (roomMsg room) room rfl
    rw [hfg] at hcount
    simp only [Bool.false_eq_true, if_false] at hcount
    have hany : anyKey (userPattern room u)
        ((handleJoin db s ws u (roomMsg room)).2.1).store = true :=
      join_store_anyKey s room ws u _ h
    obtain ⟨ih1, ih2⟩ := joinSeq_zero room u rest (handleJoin db s ws u (roomMsg room)).1
      (handleJoin db s ws u (roomMsg room)).2.1 hany
    refine ⟨?_, ih2⟩
    show countJoinDiff ((handleJoin db s ws u (roomMsg room)).2.2
      ++ (joinSeq room u rest (handleJoin db s ws u (roomMsg room)).1
            (handleJoin db s ws u (roomMsg room)).2.1).2.2) = 0
    rw [countJoinDiff_append, hcount, ih1]

/-- C1: `join` returns true iff no heartbeat key matching
`(room, username, *)` existed before the call; the handler broadcasts the
presence_diff(join)/system block iff that return value is true; and across a
sequence of joins of the same user to the same room (starting from a state
with no matching key), exactly one presence_diff(join) is ever broadcast — on
the first join, none on the others. -/
theorem C1_single_join_broadcast :
    (∀ (s : Mgr) room ws u, (s.join room ws u).2 = !anyKey (userPattern room u) s.store)
    ∧ (∀ db (s : Mgr) ws u (m : InMsg) room, asStr m.room = some room →
        countJoinDiff (handleJoin db s ws u m).2.2 = if (s.join room ws u).2 then 1 else 0)
    ∧ (∀ db (s : Mgr) room u ws rest,
        anyKey (userPattern room u) s.store = false →
        (ws, room) ∉ s.heartbeat_tasks →
        countJoinDiff (joinSeq room u (ws :: rest) db s).2.2 = 1) := by
  refine ⟨join_first_global,
    fun db s ws u m room h => handleJoin_countJoinDiff db s ws u m room h, ?_⟩
  intro db s room u ws rest hany htask
  have hfg : (s.join room ws u).2 = true := by
    rw [join_first_global, hany]
    rfl
  have hcount := handleJoin_countJoinDiff db s ws u (roomMsg room) room rfl
  rw [hfg] at hcount
  simp only [if_true] at hcount
  obtain ⟨cid, hcid⟩ := join_store_writes s room ws u htask
  have hany' : anyKey (userPattern room u)
      ((handleJoin db s ws u (roomMsg room)).2.1).store = true := by
    show anyKey (userPattern room u) ((s.join room ws u).1).store = true
    rw [hcid]
    exact anyKey_psetex_self _ _ _ _ (keyMatches_userPattern room u cid)
  obtain ⟨hz, _⟩ := joinSeq_zero room u rest (handleJoin db s ws u (roomMsg room)).1
    (handleJoin db s ws u (roomMsg room)).2.1 hany'
  show countJoinDiff ((handleJoin db s ws u (roomMsg room)).2.2
    ++ (joinSeq room u rest (handleJoin db s ws u (roomMsg room)).1
          (handleJoin db s ws u (roomMsg room)).2.1).2.2) = 1
  rw [countJoinDiff_append, hcount, hz]

/-- C1 witness: exactly one presence_diff(join) broadcast across three joins
of the same user from three sockets, at concrete inputs. -/
theorem C1_single_join_broadcast_witness :
    countJoinDiff (joinSeq "lobby" "alice" [1, 2, 3] Db.init Mgr.init).2.2 = 1 :=
  C1_single_join_broadcast.2.2 Db.init Mgr.init "lobby" "alice" 1 [2, 3]
    (by decide) (by decide)

-- ---------------------------------------------------------------------------
-- C2: exactly one presence_diff(leave) per user per room
-- ---------------------------------------------------------------------------

theorem unsubscribe_store (s : Mgr) (room : String) :
    (s.unsubscribe_room_if_empty room).store = s.store := by
  unfold Mgr.unsubscribe_room_if_empty
  split <;> rfl

theorem unsubscribe_rooms (s : Mgr) (room : String) :
    (s.unsubscribe_room_if_empty room).rooms = s.rooms := by
  unfold Mgr.unsubscribe_room_if_empty
  split <;> rfl

theorem unsubscribe_conn_rooms (s : Mgr) (room : String) :
    (s.unsubscribe_room_if_empty room).conn_rooms = s.conn_rooms := by
  unfold Mgr.unsubscribe_room_if_empty
  split <;> rfl

theorem unsubscribe_ws_username (s : Mgr) (room : String) :
    (s.unsubscribe_room_if_empty room).ws_username = s.ws_username := by
  unfold Mgr.unsubscribe_room_if_empty
  split <;> rfl

theorem unsubscribe_ws_conn_id (s : Mgr) (room : String) :
    (s.unsubscribe_room_if_empty room).ws_conn_id = s.ws_conn_id := by
  unfold Mgr.unsubscribe_room_if_empty
  split <;> rfl

theorem stop_heartbeat_store_del (s : Mgr) (room : String) (ws : Conn) (u cid : String)
    (hu : aget ws s.ws_username = some u) (hune : u ≠ "")
    (hc : aget ws s.ws_conn_id = some cid) (hcne : cid ≠ "") :
    (s.stop_heartbeat room ws).store = redisDel (heartbeat_key room u cid) s.store := by
  unfold Mgr.stop_heartbeat
  simp only [hu, hc]
  rw [if_pos ⟨hune, hcne⟩]

/-- Evaluation of `leave` when the socket's username and connection id are
known and non-empty: the heartbeat key is proactively deleted, `removedGlobal`
is computed by scanning the store after that deletion, and the username is
returned. -/
theorem leave_eval (s : Mgr) (room : String) (ws : Conn) (u cid : String)
    (hu : aget ws s.ws_username = some u) (hune : u ≠ "")
    (hc : aget ws s.ws_conn_id = some cid) (hcne : cid ≠ "") :
    ((s.leave room ws).1).store = redisDel (heartbeat_key room u cid) s.store
    ∧ ((s.leave room ws).2.1
        = !anyKey (userPattern room u) (redisDel (heartbeat_key room u cid) s.store))
    ∧ (s.leave room ws).2.2 = some u := by
  unfold Mgr.leave
  cases hm : aget room s.rooms with
  | none =>
    refine ⟨?_, ?_, ?_⟩
    · simp only [unsubscribe_store]
      exact stop_heartbeat_store_del _ room ws u cid hu hune hc hcne
    · simp [unsubscribe_store, stop_heartbeat_ws_username, hu, hune]
      exact congrArg (fun st => anyKey (userPattern room u) st)
        (stop_heartbeat_store_del _ room ws u cid hu hune hc hcne)
    · simp [stop_heartbeat_ws_username, hu]
  | some conns =>
    by_cases hd : sdiscard ws conns = []
    · refine ⟨?_, ?_, ?_⟩
      · simp only [hd, if_true]
        simp only [unsubscribe_store]
        exact stop_heartbeat_store_del _ room ws u cid hu hune hc hcne
      · simp [hd, unsubscribe_store, stop_heartbeat_ws_username, hu, hune]
        exact congrArg (fun st => anyKey (userPattern room u) st)
          (stop_heartbeat_store_del _ room ws u cid hu hune hc hcne)
      · simp [hd, stop_heartbeat_ws_username, hu]
    · refine ⟨?_, ?_, ?_⟩
      · simp only [hd, if_false]
        simp only [unsubscribe_store]
        exact stop_heartbeat_store_del _ room ws u cid hu hune hc hcne
      · simp [hd, unsubscribe_store, stop_heartbeat_ws_username, hu, hune]
        exact congrArg (fun st => anyKey (userPattern room u) st)
          (stop_heartbeat_store_del _ room ws u cid hu hune hc hcne)
      · simp [hd, stop_heartbeat_ws_username, hu]

theorem filter_comm' {α : Type} (p q : α → Bool) (l : List α) :
    (l.filter q).filter p = (l.filter p).filter q := by
  rw [List.filter_filter, List.filter_filter]
  exact List.filter_congr (fun a _ => by rw [Bool.and_comm])

theorem map_fst_redisDel (k : String) (st : Store) :
    (redisDel k st).map Prod.fst = (st.map Prod.fst).filter (fun x => x ≠ k) := by
  unfold redisDel
  induction st with
  | nil => rfl
  | cons e t ih => by_cases he : e.1 = k <;> simp [List.filter_cons, he] <;> simpa using ih

theorem anyKey_eq_false_iff (p : String) (st : Store) :
    anyKey p st = false ↔ (st.map Prod.fst).filter (keyMatches p) = [] := by
  unfold anyKey
  rw [← Bool.not_eq_true, List.any_eq_true, List.filter_eq_nil_iff]
  push_neg
  constructor
  · intro h a ha
    simpa using h a ha
  · intro h a ha
    simpa using h a ha

theorem heartbeat_key_inj (room u c1 c2 : String)
    (h : heartbeat_key room u c1 = heartbeat_key room u c2) : c1 = c2 := by
  have h1 := congrArg String.data h
  rw [heartbeat_key_data, heartbeat_key_data] at h1
  have h2 := List.append_cancel_left h1
  have h3 := List.append_cancel_left (List.tail_eq_of_cons_eq h2)
  have h4 := List.append_cancel_left (List.tail_eq_of_cons_eq h3)
  have h5 := List.append_cancel_left (List.tail_eq_of_cons_eq h4)
  exact String.ext (List.tail_eq_of_cons_eq h5)

theorem leave_connRooms_ne (s : Mgr) (room : String) (ws w : Conn) (h : w ≠ ws) :
    ((s.leave room ws).1).connRooms w = s.connRooms w := by
  cases hm : aget room s.rooms with
  | none =>
    rw [leave_fst_none s room ws hm]
    simp [Mgr.connRooms, unsubscribe_conn_rooms, stop_heartbeat_conn_rooms,
      aget_aset_ne _ _ h]
  | some conns =>
    by_cases hd : sdiscard ws conns = []
    · rw [leave_fst_del s room ws conns hm hd]
      simp [Mgr.connRooms, unsubscribe_conn_rooms, stop_heartbeat_conn_rooms,
        aget_aset_ne _ _ h]
    · rw [leave_fst_keep s room ws conns hm hd]
      simp [Mgr.connRooms, unsubscribe_conn_rooms, stop_heartbeat_conn_rooms,
        aget_aset_ne _ _ h]

theorem leave_ws_username (s : Mgr) (room : String) (ws : Conn) :
    ((s.leave room ws).1).ws_username = s.ws_username := by
  cases hm : aget room s.rooms with
  | none =>
    rw [leave_fst_none s room ws hm]
    simp [unsubscribe_ws_username, stop_heartbeat_ws_username]
  | some conns =>
    by_cases hd : sdiscard ws conns = []
    · rw [leave_fst_del s room ws conns hm hd]
      simp [unsubscribe_ws_username, stop_heartbeat_ws_username]
    · rw [leave_fst_keep s room ws conns hm hd]
      simp [unsubscribe_ws_username, stop_heartbeat_ws_username]

theorem leave_ws_conn_id (s : Mgr) (room : String) (ws : Conn) :
    ((s.leave room ws).1).ws_conn_id = s.ws_conn_id := by
  cases hm : aget room s.rooms with
  | none =>
    rw [leave_fst_none s room ws hm]
    simp [unsubscribe_ws_conn_id, stop_heartbeat_ws_conn_id]
  | some conns =>
    by_cases hd : sdiscard ws conns = []
    · rw [leave_fst_del s room ws conns hm hd]
      simp [unsubscribe_ws_conn_id, stop_heartbeat_ws_conn_id]
    · rw [leave_fst_keep s room ws conns hm hd]
      simp [unsubscribe_ws_conn_id, stop_heartbeat_ws_conn_id]

/-- Scenario invariant for C2: user `u` holds the connections `conns` to
`room`, each with its own connection id and heartbeat key, and the store's
keys matching the `(room, u)` pattern are exactly those heartbeat keys. -/
def PresInv (room u : String) (ids : Conn → String) (conns : List Conn) (s : Mgr) : Prop :=
  conns.Nodup ∧ u ≠ ""
  ∧ (∀ ws ∈ conns, s.in_room ws room = true)
  ∧ (∀ ws ∈ conns, aget ws s.ws_username = some u)
  ∧ (∀ ws ∈ conns, aget ws s.ws_conn_id = some (ids ws))
  ∧ (∀ ws ∈ conns, ids ws ≠ "")
  ∧ (∀ w1 ∈ conns, ∀ w2 ∈ conns, ids w1 = ids w2 → w1 = w2)
  ∧ ((s.store.map Prod.fst).filter (keyMatches (userPattern room u))).Perm
      (conns.map fun w => heartbeat_key room u (ids w))

instance (room u : String) (ids : Conn → String) (conns : List Conn) (s : Mgr) :
    Decidable (PresInv room u ids conns s) := by
  unfold PresInv
  infer_instance

theorem presInv_leave (room u : String) (ids : Conn → String) (conns : List Conn)
    (s : Mgr) (ws : Conn) (h : PresInv room u ids conns s) (hws : ws ∈ conns) :
    PresInv room u ids (conns.erase ws) ((s.leave room ws).1)
    ∧ ((s.leave room ws).2.1 = true ↔ conns.erase ws = [])
    ∧ (s.leave room ws).2.2 = some u := by
  obtain ⟨hnd, hune, hin, husr, hcid, hidne, hinj, hkeys⟩ := h
  obtain ⟨hst, hrem, hun⟩ :=
    leave_eval s room ws u (ids ws) (husr ws hws) hune (hcid ws hws) (hidne ws hws)
  have herasemap :
      ((conns.map fun w => heartbeat_key room u (ids w)).filter
        (fun a => a ≠ heartbeat_key room u (ids ws)))
      = (conns.erase ws).map fun w => heartbeat_key room u (ids w) := by
    rw [List.map_filter]
    rw [hnd.erase_eq_filter ws]
    refine congrArg _ (List.filter_congr ?_)
    intro a ha
    by_cases haw : a = ws
    · subst haw
      simp [Function.comp]
    · have hne : heartbeat_key room u (ids a) ≠ heartbeat_key room u (ids ws) :=
        fun he => haw (hinj a ha ws hws (heartbeat_key_inj room u _ _ he))
      simp [Function.comp, hne, haw]
  have hkeyset : ((((s.leave room ws).1).store.map Prod.fst).filter
      (keyMatches (userPattern room u))).Perm
      ((conns.erase ws).map fun w => heartbeat_key room u (ids w)) := by
    rw [hst, map_fst_redisDel, filter_comm']
    rw [← herasemap]
    exact hkeys.filter _
  have hremiff : (s.leave room ws).2.1 = true ↔ conns.erase ws = [] := by
    rw [hrem]
    rw [Bool.not_eq_true']
    rw [anyKey_eq_false_iff]
    have hst' : ((s.leave room ws).1).store = redisDel (heartbeat_key room u (ids ws)) s.store := hst
    constructor
    · intro he
      have : (((s.leave room ws).1).store.map Prod.fst).filter
          (keyMatches (userPattern room u)) = [] := by rw [hst']; exact he
      have h2 := this ▸ hkeyset
      exact List.map_eq_nil.mp (h2.symm.eq_nil)
    · intro he
      have h2 : ((conns.erase ws).map fun w => heartbeat_key room u (ids w)) = [] := by
        rw [he]
        rfl
      have h3 := h2 ▸ hkeyset
      have h4 := h3.eq_nil
      rw [hst'] at h4
      exact h4
  refine ⟨⟨hnd.erase ws, hune, ?_, ?_, ?_, ?_, ?_, hkeyset⟩, hremiff, hun⟩
  · intro w hw
    have hwne : w ≠ ws := fun he => (hnd.not_mem_erase) (he ▸ hw)
    have := hin w (List.mem_of_mem_erase hw)
    simpa [Mgr.in_room, leave_connRooms_ne s room ws w hwne] using this
  · intro w hw
    rw [leave_ws_username]
    exact husr w (List.mem_of_mem_erase hw)
  · intro w hw
    rw [leave_ws_conn_id]
    exact hcid w (List.mem_of_mem_erase hw)
  · intro w hw
    exact hidne w (List.mem_of_mem_erase hw)
  · intro w1 hw1 w2 hw2 he
    exact hinj w1 (List.mem_of_mem_erase hw1) w2 (List.mem_of_mem_erase hw2) he

theorem handleLeave_roomMsg (db : Db) (s : Mgr) (ws : Conn) (room : String)
    (hin : s.in_room ws room = true) :
    handleLeave db s ws (roomMsg room)
      = (db, (s.leave room ws).1,
          if (s.leave room ws).2.1 && pyTruthy (s.leave room ws).2.2 then
            leaveBlock room ((s.leave room ws).2.2.getD "")
              (((s.leave room ws).1).roomConns room)
          else []) := by
  simp only [handleLeave, roomMsg, asStr]
  rw [if_pos hin]
  split <;> rfl

theorem countLeaveDiff_append (a b : List Event) :
    countLeaveDiff (a ++ b) = countLeaveDiff a + countLeaveDiff b := by
  simp [countLeaveDiff, List.filter_append]

theorem countLeaveDiff_cons_send (a : Conn) (f : Frame) (evs : List Event) :
    countLeaveDiff (Event.send a f :: evs) = countLeaveDiff evs := by
  simp [countLeaveDiff, List.filter_cons, isLeaveDiffPublish]

theorem countLeaveDiff_sends (l : List Conn) (f : Conn → Frame) :
    countLeaveDiff (l.map fun p => Event.send p (f p)) = 0 := by
  induction l with
  | nil => rfl
  | cons a t ih => rw [List.map_cons, countLeaveDiff_cons_send]; exact ih

theorem countLeaveDiff_leaveBlock (room u : String) (peers : List Conn) :
    countLeaveDiff (leaveBlock room u peers) = 1 := by
  unfold leaveBlock
  rw [countLeaveDiff_append, countLeaveDiff_append, countLeaveDiff_append,
    countLeaveDiff_sends, countLeaveDiff_sends]
  simp [countLeaveDiff, List.filter, isLeaveDiffPublish]

theorem handleLeave_countLeaveDiff (db : Db) (s : Mgr) (ws : Conn) (room : String)
    (hin : s.in_room ws room = true) :
    countLeaveDiff (handleLeave db s ws (roomMsg room)).2.2
      = if (s.leave room ws).2.1 && pyTruthy (s.leave room ws).2.2 then 1 else 0 := by
  rw [handleLeave_roomMsg db s ws room hin]
  show countLeaveDiff (if (s.leave room ws).2.1 && pyTruthy (s.leave room ws).2.2 then
      leaveBlock room ((s.leave room ws).2.2.getD "")
        (((s.leave room ws).1).roomConns room)
    else []) = _
  split
  · exact countLeaveDiff_leaveBlock _ _ _
  · rfl

theorem leaveSeq_all_count (room u : String) (ids : Conn → String) :
    ∀ (conns : List Conn) (db : Db) (s : Mgr), PresInv room u ids conns s → conns ≠ [] →
      countLeaveDiff (leaveSeq room conns db s).2.2 = 1
  | [], _, _, _, hne => absurd rfl hne
  | ws :: rest, db, s, h, _ => by
    have hws : ws ∈ ws :: rest := List.mem_cons_self ws rest
    obtain ⟨hinv, hriff, hun⟩ := presInv_leave room u ids (ws :: rest) s ws h hws
    rw [List.erase_cons_head] at hinv hriff
    have hin : s.in_room ws room = true := h.2.2.1 ws hws
    have hune : u ≠ "" := h.2.1
    show countLeaveDiff ((handleLeave db s ws (roomMsg room)).2.2
      ++ (leaveSeq room rest (handleLeave db s ws (roomMsg room)).1
            (handleLeave db s ws (roomMsg room)).2.1).2.2) = 1
    rw [countLeaveDiff_append, handleLeave_countLeaveDiff db s ws room hin]
    cases rest with
    | nil =>
      have hr : (s.leave room ws).2.1 = true := hriff.mpr rfl
      have ht : pyTruthy (s.leave room ws).2.2 = true := by
        rw [hun]
        simp [pyTruthy, hune]
      rw [hr, ht]
      rfl
    | cons w2 t2 =>
      have hr : (s.leave room ws).2.1 = false := by
        cases hb : (s.leave room ws).2.1
        · rfl
        · exact absurd (hriff.mp hb) (List.cons_ne_nil w2 t2)
      rw [hr]
      have hrec := leaveSeq_all_count room u ids (w2 :: t2)
        (handleLeave db s ws (roomMsg room)).1 ((s.leave room ws).1) hinv
        (List.cons_ne_nil w2 t2)
      have hst2 : (handleLeave db s ws (roomMsg room)).2.1 = (s.leave room ws).1 := by
        rw [handleLeave_roomMsg db s ws room hin]
      rw [hst2]
      simpa using hrec

theorem leaveSeq_part_count (room u : String) (ids : Conn → String) :
    ∀ (part conns : List Conn) (db : Db) (s : Mgr), PresInv room u ids conns s →
      part.Nodup → (∀ w ∈ part, w ∈ conns) → part.length < conns.length →
      countLeaveDiff (leaveSeq room part db s).2.2 = 0
  | [], _, _, _, _, _, _, _ => rfl
  | ws :: prest, conns, db, s, h, hpnd, hsub, hlen => by
    have hws : ws ∈ conns := hsub ws (List.mem_cons_self ws prest)
    obtain ⟨hinv, hriff, hun⟩ := presInv_leave room u ids conns s ws h hws
    have hin : s.in_room ws room = true := h.2.2.1 ws hws
    have hlen' : (conns.erase ws).length = conns.length - 1 := List.length_erase_of_mem hws
    have hlen2 : prest.length + 1 < conns.length := by simpa using hlen
    have herne : conns.erase ws ≠ [] := by
      intro he
      rw [he] at hlen'
      simp at hlen'
      omega
    have hr : (s.leave room ws).2.1 = false := by
      cases hb : (s.leave room ws).2.1
      · rfl
      · exact absurd (hriff.mp hb) herne
    show countLeaveDiff ((handleLeave db s ws (roomMsg room)).2.2
      ++ (leaveSeq room prest (handleLeave db s ws (roomMsg room)).1
            (handleLeave db s ws (roomMsg room)).2.1).2.2) = 0
    rw [countLeaveDiff_append, handleLeave_countLeaveDiff db s ws room hin, hr]
    have hpsub : ∀ w ∈ prest, w ∈ conns.erase ws := by
      intro w hw
      have hwne : w ≠ ws := fun he => (List.nodup_cons.mp hpnd).1 (he ▸ hw)
      exact (List.mem_erase_of_ne hwne).mpr (hsub w (List.mem_cons_of_mem _ hw))
    have hplen : prest.length < (conns.erase ws).length := by omega
    have hrec := leaveSeq_part_count room u ids prest (conns.erase ws)
      (handleLeave db s ws (roomMsg room)).1 ((s.leave room ws).1) hinv
      (List.nodup_cons.mp hpnd).2 hpsub hplen
    have hst2 : (handleLeave db s ws (roomMsg room)).2.1 = (s.leave room ws).1 := by
      rw [handleLeave_roomMsg db s ws room hin]
    rw [hst2]
    simpa using hrec

/-- C2: `leave` proactively deletes the socket's heartbeat key and returns
removedGlobal = "no key matching (room, username, *) remains after the
deletion"; the handler broadcasts the presence_diff(leave)/system block iff
removedGlobal and the username is known; for a user holding N connections to
a room, leaving all N produces exactly one presence_diff(leave) broadcast (on
the last leave) and leaving any fewer than N produces none. -/
theorem C2_single_leave_broadcast :
    (∀ (s : Mgr) room ws u cid,
        aget ws s.ws_username = some u → u ≠ "" →
        aget ws s.ws_conn_id = some cid → cid ≠ "" →
        ((s.leave room ws).1).store = redisDel (heartbeat_key room u cid) s.store
        ∧ ((s.leave room ws).2.1
            = !anyKey (userPattern room u) (redisDel (heartbeat_key room u cid) s.store))
        ∧ (s.leave room ws).2.2 = some u)
    ∧ (∀ db (s : Mgr) ws room, s.in_room ws room = true →
        countLeaveDiff (handleLeave db s ws (roomMsg room)).2.2
          = if (s.leave room ws).2.1 && pyTruthy (s.leave room ws).2.2 then 1 else 0)
    ∧ (∀ room u ids (conns : List Conn) db (s : Mgr),
        PresInv room u ids conns s → conns ≠ [] →
        countLeaveDiff (leaveSeq room conns db s).2.2 = 1)
    ∧ (∀ room u ids (part conns : List Conn) db (s : Mgr),
        PresInv room u ids conns s → part.Nodup → (∀ w ∈ part, w ∈ conns) →
        part.length < conns.length →
        countLeaveDiff (leaveSeq room part db s).2.2 = 0) :=
  ⟨fun s room ws u cid hu hune hc hcne => leave_eval s room ws u cid hu hune hc hcne,
   fun db s ws room hin => handleLeave_countLeaveDiff db s ws room hin,
   fun room u ids conns db s h hne => leaveSeq_all_count room u ids conns db s h hne,
   fun room u ids part conns db s h hnd hsub hlen =>
     leaveSeq_part_count room u ids part conns db s h hnd hsub hlen⟩

/-- Concrete state for the C2 witness: user "u" with two connections to
room "r", each with its own heartbeat key. -/
def sC2 : Mgr :=
  ⟨[("r", [1, 2])], [(1, ["r"]), (2, ["r"])], [(1, "u"), (2, "u")], ["r"],
   [(1, "r"), (2, "r")], [(1, "a"), (2, "b")], 2,
   [(heartbeat_key "r" "u" "a", 30000), (heartbeat_key "r" "u" "b", 30000)]⟩

/-- C2 witness: leaving both connections broadcasts exactly one
presence_diff(leave); leaving only one broadcasts none. -/
theorem C2_single_leave_broadcast_witness :
    countLeaveDiff (leaveSeq "r" [1, 2] Db.init sC2).2.2 = 1
    ∧ countLeaveDiff (leaveSeq "r" [1] Db.init sC2).2.2 = 0 :=
  ⟨C2_single_leave_broadcast.2.2.1 "r" "u" (fun w => if w = 1 then "a" else "b")
      [1, 2] Db.init sC2 (by decide) (by decide),
   C2_single_leave_broadcast.2.2.2 "r" "u" (fun w => if w = 1 then "a" else "b")
      [1] [1, 2] Db.init sC2 (by decide) (by decide) (by decide) (by decide)⟩

-- ---------------------------------------------------------------------------
-- C3: disconnect is indistinguishable from explicit leaves
-- ---------------------------------------------------------------------------

theorem leave_roomConns_ne (s : Mgr) (r room : String) (ws : Conn) (h : r ≠ room) :
    ((s.leave room ws).1).roomConns r = s.roomConns r := by
  cases hm : aget room s.rooms with
  | none =>
    rw [leave_fst_none s room ws hm]
    simp [Mgr.roomConns, unsubscribe_rooms, stop_heartbeat_rooms]
  | some conns =>
    by_cases hd : sdiscard ws conns = []
    · rw [leave_fst_del s room ws conns hm hd]
      simp [Mgr.roomConns, unsubscribe_rooms, stop_heartbeat_rooms, aget_adel_ne _ h]
    · rw [leave_fst_keep s room ws conns hm hd]
      simp [Mgr.roomConns, unsubscribe_rooms, stop_heartbeat_rooms, aget_aset_ne _ _ h]

theorem leave_connRooms_self (s : Mgr) (room : String) (ws : Conn) :
    ((s.leave room ws).1).connRooms ws = sdiscard room (s.connRooms ws) := by
  cases hm : aget room s.rooms with
  | none =>
    rw [leave_fst_none s room ws hm]
    simp [Mgr.connRooms, unsubscribe_conn_rooms, stop_heartbeat_conn_rooms, aget_aset_self]
  | some conns =>
    by_cases hd : sdiscard ws conns = []
    · rw [leave_fst_del s room ws conns hm hd]
      simp [Mgr.connRooms, unsubscribe_conn_rooms, stop_heartbeat_conn_rooms, aget_aset_self]
    · rw [leave_fst_keep s room ws conns hm hd]
      simp [Mgr.connRooms, unsubscribe_conn_rooms, stop_heartbeat_conn_rooms, aget_aset_self]

theorem collect_roomConns_not_mem (ws : Conn) (r : String) :
    ∀ (rs : List String) (s : Mgr), r ∉ rs →
      ((leaveAllCollect ws rs s).1).roomConns r = s.roomConns r
  | [], _, _ => rfl
  | r' :: rest, s, h => by
    have h1 : r ∉ rest := fun hm => h (List.mem_cons_of_mem _ hm)
    have h2 : r ≠ r' := fun e => h (by simp [e])
    rw [leaveAllCollect_fst, collect_roomConns_not_mem ws r rest _ h1]
    exact leave_roomConns_ne s r r' ws h2

theorem leaveFrames_cons (ws : Conn) (r : String) (rest : List String) (db : Db) (s : Mgr) :
    leaveFrames ws (r :: rest) db s
      = ((leaveFrames ws rest (handleLeave db s ws (roomMsg r)).1
            (handleLeave db s ws (roomMsg r)).2.1).1,
         (leaveFrames ws rest (handleLeave db s ws (roomMsg r)).1
            (handleLeave db s ws (roomMsg r)).2.1).2.1,
         (handleLeave db s ws (roomMsg r)).2.2
           ++ (leaveFrames ws rest (handleLeave db s ws (roomMsg r)).1
                 (handleLeave db s ws (roomMsg r)).2.1).2.2) := rfl

theorem leaveAllCollect_cons (ws : Conn) (r : String) (rest : List String) (s : Mgr) :
    leaveAllCollect ws (r :: rest) s
      = if (s.leave r ws).2.1 && pyTruthy (s.leave r ws).2.2 then
          ((leaveAllCollect ws rest ((s.leave r ws).1)).1,
            (r, (s.leave r ws).2.2.getD "")
              :: (leaveAllCollect ws rest ((s.leave r ws).1)).2)
        else ((leaveAllCollect ws rest ((s.leave r ws).1)).1,
            (leaveAllCollect ws rest ((s.leave r ws).1)).2) := rfl

theorem leaveFrames_eq_collect (ws : Conn) :
    ∀ (rs : List String) (db : Db) (s : Mgr), rs.Nodup → s.connRooms ws = rs →
      (leaveFrames ws rs db s).1 = db
      ∧ (leaveFrames ws rs db s).2.1 = (leaveAllCollect ws rs s).1
      ∧ (leaveFrames ws rs db s).2.2 =
          ((leaveAllCollect ws rs s).2.map
            (fun p => leaveBlock p.1 p.2 (((leaveAllCollect ws rs s).1).roomConns p.1))).flatten
  | [], _, _, _, _ => ⟨rfl, rfl, rfl⟩
  | r :: rest, db, s, hnd, hcr => by
    have hin : s.in_room ws r = true := by
      simp [Mgr.in_room, hcr]
    have hrnd : rest.Nodup := (List.nodup_cons.mp hnd).2
    have hrmem : r ∉ rest := (List.nodup_cons.mp hnd).1
    have hcr' : ((s.leave r ws).1).connRooms ws = rest := by
      rw [leave_connRooms_self, hcr, sdiscard_cons_of_nodup r rest (hcr ▸ hnd)]
    obtain ⟨ih1, ih2, ih3⟩ := leaveFrames_eq_collect ws rest db ((s.leave r ws).1) hrnd hcr'
    have ha := handleLeave_roomMsg db s ws r hin
    rw [leaveFrames_cons, leaveAllCollect_cons]
    rw [ha]
    by_cases hcond : ((s.leave r ws).2.1 && pyTruthy (s.leave r ws).2.2) = true
    · rw [if_pos hcond, if_pos hcond]
      refine ⟨ih1, ih2, ?_⟩
      show leaveBlock r ((s.leave r ws).2.2.getD "") (((s.leave r ws).1).roomConns r)
          ++ (leaveFrames ws rest db ((s.leave r ws).1)).2.2
        = leaveBlock r ((s.leave r ws).2.2.getD "")
            (((leaveAllCollect ws rest ((s.leave r ws).1)).1).roomConns r)
          ++ ((leaveAllCollect ws rest ((s.leave r ws).1)).2.map
              (fun p => leaveBlock p.1 p.2
                (((leaveAllCollect ws rest ((s.leave r ws).1)).1).roomConns p.1))).flatten
      rw [collect_roomConns_not_mem ws r rest _ hrmem, ih3]
    · rw [if_neg hcond, if_neg hcond]
      exact ⟨ih1, ih2, ih3⟩

/-- C3: for a connection whose joined-room set is `rs`, disconnecting (which
runs `leave_all`) emits exactly the same event trace — the same
presence_diff(leave) and system payloads, to the same peers, in the same
local-then-bus order — as sending an explicit leave frame for each joined room
in the same order. -/
theorem C3_disconnect_equals_explicit_leaves (db : Db) (s : Mgr) (ws : Conn)
    (h : (s.connRooms ws).Nodup) :
    (s.leave_all ws).2 = (leaveFrames ws (s.connRooms ws) db s).2.2 := by
  obtain ⟨-, -, h3⟩ := leaveFrames_eq_collect ws (s.connRooms ws) db s h rfl
  rw [h3]
  rfl

/-- Concrete state for the C3 witness: sockets 1 and 3 in room "lobby". -/
def sC3 : Mgr :=
  ⟨[("lobby", [1, 3])], [(1, ["lobby"]), (3, ["lobby"])],
   [(1, "alice"), (3, "bob")], ["lobby"], [(1, "lobby"), (3, "lobby")],
   [(1, "a"), (3, "b")], 2,
   [(heartbeat_key "lobby" "alice" "a", 30000), (heartbeat_key "lobby" "bob" "b", 30000)]⟩

/-- C3 witness: socket 3's disconnect cleanup and an explicit leave frame
produce identical traces at a concrete state. -/
theorem C3_disconnect_equals_explicit_leaves_witness :
    (sC3.leave_all 3).2 = (leaveFrames 3 (sC3.connRooms 3) Db.init sC3).2.2 :=
  C3_disconnect_equals_explicit_leaves Db.init sC3 3 (by decide)

end FastRoom
